import Mathlib

/-! datapipe: placeholder substitution, handlers, pipeline, scheduler, configuration.

A shallow embedding of the packages `engine` and `config` of `jaxmef/datapipe`,
with the properties of the specification that concern them.

Go strings are modelled as lists of Unicode code points (`List Char`), which is
what Go's `regexp` and `strings.TrimSpace` see for valid UTF-8 input.  A Go
`map[string]string` is an association list read with `List.lookup`.
-/

set_option autoImplicit false

namespace Datapipe

/-- A Go string, as the sequence of its runes. -/
abbrev Str := List Char

/-- A Go `map[string]string`; `List.lookup` is the map read `v, ok := data[key]`. -/
abbrev Data := List (Str × Str)

/-! ## The token regexp `\{\{\s*([^\s}]+)\s*\}\}` -/

/-- The class `\s` of Go's regexp syntax: `[\t\n\f\r ]`. -/
def isReSpace (c : Char) : Bool :=
  c == '\t' || c == '\n' || c == '\x0c' || c == '\r' || c == ' '

/-- The function `unicode.IsSpace`, which `strings.TrimSpace` uses:
`\t \n \v \f \r`, space, U+0085, U+00A0 and the code points of category Z. -/
def isSpace (c : Char) : Bool :=
  let n := c.toNat
  (9 ≤ n && n ≤ 13) || n == 0x20 || n == 0x85 || n == 0xA0 || n == 0x1680 ||
    (0x2000 ≤ n && n ≤ 0x200A) || n == 0x2028 || n == 0x2029 || n == 0x202F ||
    n == 0x205F || n == 0x3000

/-- The class `[^W}]` for a white space class `W`; the source has `W = \s`. -/
def isKeyChar (ws : Char → Bool) (c : Char) : Bool :=
  !ws c && c != '}'

/-- A match of `\{\{W*([^W}]+)W*\}\}`: the matched text, its capture group and
the text after the match. -/
structure Match where
  text : Str
  group : Str
  rest : Str
  deriving DecidableEq, Repr

/-- The match of `\{\{W*([^W}]+)W*\}\}` anchored at the start of `s`.  Each of
the three repetitions is greedy and is followed by something that rejects the
characters it repeats, so the only candidate is the one that takes every
repetition to its end. -/
def matchPrefixW (ws : Char → Bool) (s : Str) : Option Match :=
  match s with
  | '{' :: '{' :: r =>
    let w1 := r.takeWhile ws
    let r1 := r.dropWhile ws
    let k := r1.takeWhile (isKeyChar ws)
    let r2 := r1.dropWhile (isKeyChar ws)
    let w2 := r2.takeWhile ws
    let r3 := r2.dropWhile ws
    match k, r3 with
    | _ :: _, '}' :: '}' :: rest =>
      some ⟨'{' :: '{' :: (w1 ++ (k ++ (w2 ++ ['}', '}']))), k, rest⟩
    | _, _ => none
  | _ => none

/-- The regexp of the source, `\{\{\s*([^\s}]+)\s*\}\}`, anchored at the start of `s`. -/
def matchPrefix (s : Str) : Option Match := matchPrefixW isReSpace s

/-- The method `re.MatchString`: some match starts somewhere in `s`. -/
def matchString : Str → Bool
  | [] => false
  | c :: cs => (matchPrefix (c :: cs)).isSome || matchString cs

/-- The loop of `re.ReplaceAllStringFunc` with `fuel` steps left: text before the
leftmost match is copied, the match is replaced by `repl` of it, and the search
goes on after the match. -/
def replaceAllFuel (repl : Str → Str) : Nat → Str → Str
  | 0, s => s
  | _ + 1, [] => []
  | fuel + 1, c :: cs =>
    match matchPrefix (c :: cs) with
    | some m => repl m.text ++ replaceAllFuel repl fuel m.rest
    | none => c :: replaceAllFuel repl fuel cs

/-- The method `re.ReplaceAllStringFunc`; every step consumes a character, so
`s.length` steps are enough. -/
def replaceAllStringFunc (repl : Str → Str) (s : Str) : Str :=
  replaceAllFuel repl s.length s

/-- The function `strings.TrimSpace`. -/
def trimSpace (s : Str) : Str :=
  ((s.dropWhile isSpace).reverse.dropWhile isSpace).reverse

/-- The key the source looks up for a match `m`:
`strings.TrimSpace(m[2 : len(m)-2])`. -/
def keyOf (m : Str) : Str :=
  trimSpace ((m.drop 2).take (m.length - 2 - 2))

/-- The replacement function of `replacePlaceholders`: the value of the key, or
the match itself when the key is absent. -/
def replaceOne (data : Data) (m : Str) : Str :=
  match data.lookup (keyOf m) with
  | none => m
  | some value => value

/-- The function `replacePlaceholders` of `engine/handler.go`. -/
def replacePlaceholders (s : Str) (data : Data) : Str × Bool :=
  let result := replaceAllStringFunc (replaceOne data) s
  if matchString result then ([], false) else (result, true)

/-! ## Handlers: `engine/types.go`, `engine/filter.go`, `engine/handler.go` -/

/-- The type `HandlerResult`, a `map[string]json.RawMessage`. -/
abbrev HandlerResult := List (Str × Str)

/-- What a `Handle` returns: the results (`nil` is `[]`) and the error (`nil` is
`none`, otherwise the text of `err.Error()`). -/
abbrev Outcome := List HandlerResult × Option Str

/-- The value that `expr.Eval` returns, as far as the filter looks at it: a
`bool`, or a value of another type. -/
inductive Value where
  | bool (b : Bool)
  | other (repr : Str)
  deriving DecidableEq, Repr

/-- The struct `config.FilterHandler`. -/
structure FilterHandler where
  expectFalse : Bool
  expression : Str
  deriving DecidableEq, Repr

/-- The struct `filterHandler`. -/
structure filterHandler where
  name : Str
  cfg : FilterHandler
  deriving DecidableEq, Repr

/-- The method `filterHandler.Handle`.  The expression evaluator `expr.Eval` of
`github.com/expr-lang/expr` is the parameter `eval`. -/
def filterHandler.Handle (eval : Str → Except Str Value) (f : filterHandler)
    (data : Data) : Outcome :=
  match replacePlaceholders f.cfg.expression data with
  | (_, false) =>
    ([], some "failed to replace placeholders in expression: some data not found".toList)
  | (expression, true) =>
    match eval expression with
    | .error err => ([], some ("failed to evaluate expression: ".toList ++ err))
    | .ok expressionResult =>
      match expressionResult with
      | .other _ => ([], some "expression did not return a boolean".toList)
      | .bool expressionBoolResult =>
        if expressionBoolResult == f.cfg.expectFalse then ([], none) else ([[]], none)

/-- The struct `config.HTTPHandler`; durations are in nanoseconds. -/
structure HTTPHandler where
  url : Str
  method : Str
  body : Str
  headers : Data
  queryParams : Data
  timeout : Int
  expectedResponseCode : Int
  retries : Int
  retryInterval : Int
  parallelRun : Bool
  deriving DecidableEq, Repr

/-- The struct `httpHandler`; `timeout` is the timeout of its `http.Client`.  The
mutex `busyMux` has no part in a sequential run. -/
structure httpHandler where
  name : Str
  cfg : HTTPHandler
  timeout : Int
  deriving DecidableEq, Repr

/-- The function `newHTTPHandler`. -/
def newHTTPHandler (name : Str) (cfg : HTTPHandler) : httpHandler :=
  let timeout := if cfg.timeout != 0 then cfg.timeout else 15 * 1000000000
  let cfg := if cfg.expectedResponseCode == 0 then { cfg with expectedResponseCode := 200 }
    else cfg
  { name := name, cfg := cfg, timeout := timeout }

/-- The type `url.Values`, a `map[string][]string`. -/
abbrev Values := List (Str × List Str)

/-- The method `url.Values.Add`: append `value` to the values of `key`. -/
def Values.add : Values → Str → Str → Values
  | [], key, value => [(key, [value])]
  | (k, vs) :: rest, key, value =>
    if k = key then (k, vs ++ [value]) :: rest else (k, vs) :: Values.add rest key value

/-- The method `http.Header.Set` on a canonical key: replace the values of `key`. -/
def headerSet : Values → Str → Str → Values
  | [], key, value => [(key, [value])]
  | (k, vs) :: rest, key, value =>
    if k = key then (k, [value]) :: rest else (k, vs) :: headerSet rest key value

/-- The fields of `http.Request` that `createRequest` sets. -/
structure Request where
  method : Str
  url : Str
  header : Values
  body : Str
  deriving DecidableEq, Repr

/-- The fields of `http.Response` that `executeRequest` reads. -/
structure Response where
  statusCode : Int
  body : Str
  deriving DecidableEq, Repr

/-- The functions of Go's standard library that the HTTP handler calls. -/
structure Stdlib where
  /-- The function `http.NewRequestWithContext(ctx, method, url, body)`: a request
  with an empty header, or the error for a bad method or URL. -/
  newRequest : Str → Str → Str → Except Str Request
  /-- The function `textproto.CanonicalMIMEHeaderKey`, applied by `Header.Set`. -/
  canonicalHeaderKey : Str → Str
  /-- The method `(*url.URL).Query`: the query of the URL, parsed into a new
  `url.Values`. -/
  query : Str → Values
  /-- The decoding of a response body into `handlerResponseBody.Results`. -/
  decode : Str → Except Str (List HandlerResult)

/-- The method `httpHandler.createRequest`.  In the last loop `req.URL.Query()`
is a new `url.Values` each time, `Add` changes that value, and the request is
left as it was. -/
def httpHandler.createRequest (std : Stdlib) (h : httpHandler) (data : Data) :
    Except Str Request :=
  match replacePlaceholders h.cfg.url data with
  | (_, false) => .error "failed to replace placeholders in URL: some data not found".toList
  | (url, true) =>
    match replacePlaceholders h.cfg.body data with
    | (_, false) =>
      .error "failed to replace placeholders in body: some data not found".toList
    | (body, true) =>
      match std.newRequest h.cfg.method url body with
      | .error err => .error ("failed to create HTTP request: ".toList ++ err)
      | .ok req =>
        let req := h.cfg.headers.foldl
          (fun (req : Request) kv =>
            { req with header := headerSet req.header (std.canonicalHeaderKey kv.1) kv.2 })
          req
        let req := h.cfg.queryParams.foldl
          (fun (req : Request) kv =>
            let _values := Values.add (std.query req.url) kv.1 kv.2
            req)
          req
        .ok req

/-- The verb `%d` of `fmt` on an `int`. -/
def itoa : Int → Str
  | Int.ofNat n => Nat.toDigits 10 n
  | Int.negSucc n => '-' :: Nat.toDigits 10 (n + 1)

/-- What one call of `executeRequest` did: its results and error, and whether it
handed a request to the HTTP client. -/
structure Attempt where
  results : List HandlerResult
  err : Option Str
  sent : Bool
  deriving DecidableEq, Repr

/-- The method `httpHandler.executeRequest`; `send` is `h.httpClient.Do` at the
time of the call. -/
def httpHandler.executeRequest (std : Stdlib) (send : Request → Except Str Response)
    (h : httpHandler) (data : Data) : Attempt :=
  match h.createRequest std data with
  | .error err => ⟨[], some ("failed to create HTTP request: ".toList ++ err), false⟩
  | .ok req =>
    match send req with
    | .error err => ⟨[], some ("failed to send HTTP request: ".toList ++ err), true⟩
    | .ok resp =>
      if resp.statusCode != h.cfg.expectedResponseCode then
        ⟨[], some ("unexpected response code: got ".toList ++ itoa resp.statusCode ++
          ", expected ".toList ++ itoa h.cfg.expectedResponseCode), true⟩
      else
        match std.decode resp.body with
        | .error err => ⟨[], some ("failed to decode response body: ".toList ++ err), true⟩
        | .ok results => ⟨results, none, true⟩

/-- The world around one call of `Handle`: the answer of the HTTP client to the
request of each attempt (attempts are numbered from 0), whether the context is
found cancelled in the wait after each failed attempt, and `ctx.Err()`. -/
structure Env where
  send : Nat → Request → Except Str Response
  cancelled : Nat → Bool
  ctxErr : Str

/-- What one call of `httpHandler.Handle` did: the calls of `executeRequest`, the
requests handed to the HTTP client, the waits of `retry_interval` that were
started, and what it returned. -/
structure HandleRun where
  attempts : Nat
  sent : Nat
  waits : Nat
  results : List HandlerResult
  err : Option Str
  deriving DecidableEq, Repr

/-- The verb `%s` of `fmt` on an `error`, which may be `nil`. -/
def fmtErr : Option Str → Str
  | some e => e
  | none => "%!s(<nil>)".toList

/-- The loop of `httpHandler.Handle` from the test `attempt <= h.cfg.Retries` on,
for an arbitrary `executeRequest`; `none` when `fuel` runs out. -/
def handleLoop (exec : Nat → Attempt) (env : Env) (retries : Int) :
    Nat → Nat → Option Str → Nat → Nat → Option HandleRun
  | 0, _, _, _, _ => none
  | fuel + 1, attempt, lastErr, sent, waits =>
    if (attempt : Int) ≤ retries then
      let a := exec attempt
      let sent := if a.sent then sent + 1 else sent
      match a.err with
      | none => some ⟨attempt + 1, sent, waits, a.results, none⟩
      | some err =>
        if (attempt : Int) < retries then
          if env.cancelled attempt then
            some ⟨attempt + 1, sent, waits + 1, [], some env.ctxErr⟩
          else handleLoop exec env retries fuel (attempt + 1) (some err) sent (waits + 1)
        else handleLoop exec env retries fuel (attempt + 1) (some err) sent waits
    else
      some ⟨attempt, sent, waits, [],
        some ("failed to execute HTTP request after ".toList ++ itoa retries ++
          " attempts: ".toList ++ fmtErr lastErr)⟩

/-- The method `httpHandler.Handle`.  The loop makes at most `Retries + 1` passes
and one more test, which is the fuel it gets. -/
def httpHandler.Handle (std : Stdlib) (env : Env) (h : httpHandler) (data : Data) :
    Option HandleRun :=
  handleLoop (fun attempt => h.executeRequest std (env.send attempt) data) env h.cfg.retries
    ((h.cfg.retries + 1).toNat + 1) 0 none 0 0

/-- The number of attempts among `a, a+1, ..., a+k-1` that handed a request to
the HTTP client. -/
def sentCount (exec : Nat → Attempt) : Nat → Nat → Nat
  | _, 0 => 0
  | a, k + 1 => (if (exec a).sent then 1 else 0) + sentCount exec (a + 1) k

/-! ## The pipeline evaluator: `engine/data_pipe.go` -/

/-- The assignment `m[key] = value` on a Go map: the value of an entry that is
there is replaced, a new entry is added otherwise. -/
def mapSet : Data → Str → Str → Data
  | [], key, value => [(key, value)]
  | (k, v) :: rest, key, value =>
    if k = key then (k, value) :: rest else (k, v) :: mapSet rest key value

/-- The function `copyMap`. -/
def copyMap (originalMap : Data) : Data :=
  originalMap.foldl (fun newMap kv => mapSet newMap kv.1 kv.2) []

/-- A value of the interface `Handler`.  `Handle` also gets the place of the call
in the run, the path of record indices that leads to it (the first index is the
number of the job), so that two calls may answer differently to the same map. -/
structure Handler where
  Name : Str
  Handle : List Nat → Data → Outcome

/-- One call of `Handle` made by `runHandlerPipe`. -/
structure Call where
  name : Str
  path : List Nat
  data : Data
  deriving DecidableEq, Repr

/-- One assignment `newData[handlers[0].Name()+"."+k] = string(v)`: the key, and
whether `newData` had the key before. -/
structure Write where
  key : Str
  present : Bool
  deriving DecidableEq, Repr

/-- What one call of `runHandlerPipe` did: the error it returned, the calls of
`Handle` in the order parent, then the branches in the order of the records,
and the assignments to the maps of the branches. -/
structure PipeRun where
  err : Option Str
  calls : List Call
  writes : List Write
  deriving DecidableEq, Repr

/-- The map `newData` of a branch: a copy of `data` with
`newData[name+"."+k] = string(v)` for the entries of the record. -/
def newData (name : Str) (data : Data) (result : HandlerResult) : Data :=
  result.foldl (fun nd kv => mapSet nd (name ++ '.' :: kv.1) kv.2) (copyMap data)

/-- The assignments that build `newData` from the copy `nd` of the map. -/
def recordWrites (name : Str) : Data → HandlerResult → List Write
  | _, [] => []
  | nd, (k, v) :: rest =>
    ⟨name ++ '.' :: k, (nd.lookup (name ++ '.' :: k)).isSome⟩ ::
      recordWrites name (mapSet nd (name ++ '.' :: k) v) rest

/-- The text `errMsg` that is built from the errors read from `errsChan`. -/
def joinErrors (errs : List Str) : Str :=
  errs.foldl (fun errMsg err => errMsg ++ (err ++ ['\n'])) []

/-- The function `runHandlerPipe`.  The branches run concurrently in the source;
here they are listed in the order of the records, and `order` gives the order
in which their errors arrive on `errsChan`. -/
def runHandlerPipe (order : List Nat → List Str → List Str) :
    List Nat → Data → List Handler → PipeRun
  | _, _, [] => ⟨none, [], []⟩
  | path, data, h :: tail =>
    match h.Handle path data with
    | (_, some err) =>
      ⟨some ("failed to run handler ".toList ++ h.Name ++ ": ".toList ++ err),
        [⟨h.Name, path, data⟩], []⟩
    | (results, none) =>
      let children := (List.enum results).map fun ir =>
        runHandlerPipe order (path ++ [ir.1]) (newData h.Name data ir.2) tail
      let errMsg := joinErrors (order path (children.filterMap fun c => c.err))
      ⟨if errMsg ≠ [] then some ("failed to run handler pipe: ".toList ++ errMsg) else none,
        ⟨h.Name, path, data⟩ :: children.flatMap fun c => c.calls,
        (results.flatMap fun r => recordWrites h.Name (copyMap data) r) ++
          children.flatMap fun c => c.writes⟩

/-! ## The configuration: `config/config.go`, `config/engine.go`, `config/handler.go` -/

/-- The struct `config.Engine`, without the log settings. -/
structure config.Engine where
  disableRunOnStart : Bool
  interval : Int
  runAt : Str
  deriving DecidableEq, Repr

/-- The struct `config.Handler`. -/
structure config.Handler where
  type : Str
  http : HTTPHandler
  filter : FilterHandler
  deriving DecidableEq, Repr

/-- The struct `config.HandlerMapItem`. -/
structure config.HandlerMapItem where
  name : Str
  handler : config.Handler
  deriving DecidableEq, Repr

/-- The struct `config.Config`; `handlers` is the pointer `*HandlerMap`. -/
structure config.Config where
  engine : config.Engine
  handlers : Option (List config.HandlerMapItem)
  deriving DecidableEq, Repr

/-- The method `Engine.Validate`; `none` is the `nil` error. -/
def config.Engine.Validate (e : config.Engine) : Option Str :=
  if e.interval ≤ 0 then some "'interval' must be greater than 0".toList else none

/-- The method `HTTPHandler.Validate`. -/
def HTTPHandler.Validate (h : HTTPHandler) : Option Str :=
  if h.method = [] then some "'method' is required".toList
  else if h.url = [] then some "'url' is required".toList
  else none

/-- The function `replacePlaceholdersForValidation`. -/
def replacePlaceholdersForValidation (e : Str) : Str :=
  replaceAllStringFunc (fun m => '"' :: (keyOf m ++ ['"'])) e

/-- The method `FilterHandler.Validate`, for the evaluator `eval`. -/
def FilterHandler.Validate (eval : Str → Except Str Value) (h : FilterHandler) : Option Str :=
  if h.expression = [] then some "'expression' is required".toList
  else
    match eval (replacePlaceholdersForValidation h.expression) with
    | .error err => some ("failed to parse expression: ".toList ++ err)
    | .ok _ => none

/-- The method `Handler.Validate` of the package `config`. -/
def config.Handler.Validate (eval : Str → Except Str Value) (h : config.Handler) :
    Option Str :=
  if h.type = "http".toList ∨ h.type = [] then h.http.Validate
  else if h.type = "filter".toList then h.filter.Validate eval
  else some ("invalid 'type' value: ".toList ++ h.type)

/-- The loop of `Config.Validate` over the handlers; `handlerNames` are the names
seen so far. -/
def config.validateHandlers (eval : Str → Except Str Value) :
    List Str → List config.HandlerMapItem → Option Str
  | _, [] => none
  | handlerNames, handlerItem :: rest =>
    if handlerItem.name ∈ handlerNames then
      some ("duplicate handler name: '".toList ++ handlerItem.name ++ "'".toList)
    else
      match handlerItem.handler.Validate eval with
      | some err =>
        some ("config for '".toList ++ handlerItem.name ++ "' handler is invalid: ".toList ++ err)
      | none => config.validateHandlers eval (handlerItem.name :: handlerNames) rest

/-- The method `Config.Validate`. -/
def config.Config.Validate (eval : Str → Except Str Value) (c : config.Config) : Option Str :=
  match c.handlers with
  | none => some "no handlers defined".toList
  | some [] => some "no handlers defined".toList
  | some (item :: items) =>
    match c.engine.Validate with
    | some err => some ("invalid engine config: ".toList ++ err)
    | none => config.validateHandlers eval [] (item :: items)

/-! ## The engine facade: `NewDataPipe` -/

/-- What the handlers of an engine meet when they run: the standard library,
the HTTP client and the context at each place of a run, and `expr.Eval`. -/
structure World where
  std : Stdlib
  env : List Nat → Env
  eval : Str → Except Str Value

/-- An `httpHandler` as a value of the interface `Handler`. -/
def httpHandler.toHandler (w : World) (h : httpHandler) : Handler where
  Name := h.name
  Handle := fun path data =>
    match h.Handle w.std (w.env path) data with
    | some run => (run.results, run.err)
    | none => ([], none)

/-- The function `newFilterHandler`. -/
def newFilterHandler (name : Str) (cfg : FilterHandler) : filterHandler :=
  { name := name, cfg := cfg }

/-- A `filterHandler` as a value of the interface `Handler`. -/
def filterHandler.toHandler (w : World) (f : filterHandler) : Handler where
  Name := f.name
  Handle := fun _ data => f.Handle w.eval data

/-- The function `newHandler`. -/
def newHandler (w : World) (name : Str) (cfg : config.Handler) : Except Str Handler :=
  if cfg.type = [] ∨ cfg.type = "http".toList then
    .ok ((newHTTPHandler name cfg.http).toHandler w)
  else if cfg.type = "filter".toList then
    .ok ((newFilterHandler name cfg.filter).toHandler w)
  else .error ("unknown handler type: ".toList ++ cfg.type)

/-- The struct `dataPipe`, without the logger. -/
structure dataPipe where
  cfg : config.Engine
  handlers : List Handler

/-- The loop of `NewDataPipe`; `handlers` is `dp.handlers` so far. -/
def newHandlers (w : World) : List config.HandlerMapItem → List Handler →
    Except Str (List Handler)
  | [], handlers => .ok handlers
  | handlerItem :: rest, handlers =>
    match newHandler w handlerItem.name handlerItem.handler with
    | .error err =>
      .error ("failed to create '".toList ++ handlerItem.name ++ "' handler: ".toList ++ err)
    | .ok h => newHandlers w rest (handlers ++ [h])

/-- The function `NewDataPipe`. -/
def NewDataPipe (w : World) (cfg : config.Config) : Except Str dataPipe :=
  match cfg.handlers with
  | none => .error "no handlers defined".toList
  | some [] => .error "no handlers defined".toList
  | some (item :: items) =>
    match newHandlers w (item :: items) [] with
    | .error err => .error err
    | .ok handlers => .ok { cfg := cfg.engine, handlers := handlers }

/-- The method `dataPipe.runJob` for job number `job`, which starts from the
`nil` map. -/
def dataPipe.runJob (order : List Nat → List Str → List Str) (dp : dataPipe) (job : Nat) :
    Option Str :=
  match (runHandlerPipe order [job] [] dp.handlers).err with
  | some err => some ("failed to run handler pipe: ".toList ++ err)
  | none => none

/-! ## The scheduler: `createTimer` and `Run` -/

/-- The functions of the package `time` that `createTimer` calls. -/
structure TimeLib where
  /-- The instant `time.Now()`, in nanoseconds. -/
  now : Int
  /-- The instant `time.Date(now.Year(), now.Month(), now.Day(), hour, min, 0, 0,
  now.Location())`, in nanoseconds. -/
  today : Nat → Nat → Int
  /-- The call `time.Parse("15:04", runAt)`: the hour and the minute of the
  result, or the error. -/
  parse : Str → Except Str (Nat × Nat)

/-- The duration `time.Hour`, in nanoseconds. -/
def hour : Int := 3600 * 1000000000

/-- The duration `time.Minute`, in nanoseconds. -/
def minute : Int := 60 * 1000000000

/-- What `createTimer` does and returns: the delays the timer is armed with, in
order (`time.NewTimer(interval)`, then `t.Reset`), the interval and the error. -/
structure TimerSetup where
  delays : List Int
  interval : Int
  err : Option Str
  deriving DecidableEq, Repr

/-- The function `createTimer`. -/
def createTimer (lib : TimeLib) (interval : Int) (runAt : Str) : TimerSetup :=
  if runAt ≠ [] then
    match lib.parse runAt with
    | .error err => ⟨[interval], interval, some ("failed to parse run_at time: ".toList ++ err)⟩
    | .ok (h, m) =>
      let nextRun := lib.today h m
      let nextRun := if nextRun < lib.now then nextRun + 24 * hour else nextRun
      ⟨[interval, nextRun - lib.now], 24 * hour, none⟩
  else ⟨[interval], interval, none⟩

/-- The case that a pass of the `select` of `Run` takes: `<-t.C` or
`<-ctx.Done()`. -/
inductive Choice where
  | tick
  | done
  deriving DecidableEq, Repr

/-- What `Run` does, as far as the scheduler is concerned. -/
inductive Event where
  /-- A call of `runJob`, with the error it returned. -/
  | job (err : Option Str)
  /-- The timer is armed with a delay (`NewTimer` or `Reset`). -/
  | arm (delay : Int)
  /-- The case `<-t.C` is taken. -/
  | tick
  /-- The case `<-ctx.Done()` is taken: "data pipe stopped". -/
  | stopped
  /-- The function `createTimer` failed: "failed to create timer". -/
  | timerError (err : Str)
  deriving DecidableEq, Repr

/-- The events of a run of `Run` and whether `Run` has returned. -/
structure RunTrace where
  events : List Event
  returned : Bool
  deriving DecidableEq, Repr

/-- The loop of `Run` for the given cases of the `select`; `job` is the number of
jobs run so far.  When the cases run out `Run` is waiting in the `select`. -/
def runLoop (order : List Nat → List Str → List Str) (dp : dataPipe) (interval : Int) :
    List Choice → Nat → RunTrace
  | [], _ => ⟨[], false⟩
  | .done :: _, _ => ⟨[.stopped], true⟩
  | .tick :: rest, job =>
    let r := runLoop order dp interval rest (job + 1)
    ⟨.tick :: .job (dp.runJob order job) :: .arm interval :: r.events, r.returned⟩

/-- The method `dataPipe.Run`, for the cases that its `select` takes. -/
def dataPipe.Run (lib : TimeLib) (order : List Nat → List Str → List Str) (dp : dataPipe)
    (choices : List Choice) : RunTrace :=
  let first := if !dp.cfg.disableRunOnStart then [Event.job (dp.runJob order 0)] else []
  let t := createTimer lib dp.cfg.interval dp.cfg.runAt
  match t.err with
  | some err => ⟨first ++ (t.delays.map Event.arm ++ [Event.timerError err]), true⟩
  | none =>
    let r := runLoop order dp t.interval choices first.length
    ⟨first ++ (t.delays.map Event.arm ++ r.events), r.returned⟩

/-- Whether an event is a call of `runJob`. -/
def Event.isJob : Event → Bool
  | .job _ => true
  | _ => false

/-- Whether an event arms the timer. -/
def Event.isArm : Event → Bool
  | .arm _ => true
  | _ => false

/-- Whether an event is a timer tick. -/
def Event.isTick : Event → Bool
  | .tick => true
  | _ => false

/-- The number of jobs among the events before the first event that satisfies
`p`. -/
def jobsBefore (p : Event → Bool) (events : List Event) : Nat :=
  (events.takeWhile fun e => !p e).countP Event.isJob

/-! ## Maps, schedules and handlers for the statements about the pipeline -/

/-- A list of entries that is a Go map: no key occurs twice. -/
def IsMap (d : Data) : Prop := (d.map Prod.fst).Nodup

/-- The entries `name+"."+k -> string(v)` for the entries of a record. -/
def prefixed (name : Str) (result : HandlerResult) : Data :=
  result.map fun kv => (name ++ '.' :: kv.1, kv.2)

/-- The errors arrive on `errsChan` in the order of the records. -/
def inOrder : List Nat → List Str → List Str := fun _ errs => errs

/-- A handler that answers every call with the same records, like the mock
handlers of `data_pipe_test.go`. -/
def mockHandler (name : Str) (results : List HandlerResult) : Handler where
  Name := name
  Handle := fun _ _ => (results, none)

/-- A handler that fails every call with the error `err`. -/
def failingHandler (name : Str) (err : Str) : Handler where
  Name := name
  Handle := fun _ _ => ([], some err)

/-! ## Clocks for the statements about the scheduler -/

/-- The value of a decimal digit. -/
def digitValue (c : Char) : Option Nat :=
  if '0' ≤ c ∧ c ≤ '9' then some (c.toNat - '0'.toNat) else none

/-- A stand-in for `time.Parse("15:04", s)`: one or two digits of an hour below
24, a colon, two digits of a minute below 60, and nothing else.  The texts of
the errors are shortened. -/
def parseClock (s : Str) : Except Str (Nat × Nat) :=
  let build := fun (h m : Option Nat) =>
    match h, m with
    | some h, some m =>
      if 24 ≤ h then Except.error "hour out of range".toList
      else if 60 ≤ m then Except.error "minute out of range".toList
      else Except.ok (h, m)
    | _, _ => Except.error "cannot parse".toList
  match s with
  | [h1, ':', m1, m2] =>
    build (digitValue h1)
      ((digitValue m1).bind fun a => (digitValue m2).map fun b => 10 * a + b)
  | [h1, h2, ':', m1, m2] =>
    build ((digitValue h1).bind fun a => (digitValue h2).map fun b => 10 * a + b)
      ((digitValue m1).bind fun a => (digitValue m2).map fun b => 10 * a + b)
  | _ => Except.error "cannot parse".toList

/-- A day of 24 hours whose local midnight is the instant 0, at the instant
`now`. -/
def regularDay (now : Int) : TimeLib where
  now := now
  today := fun h m => h * hour + m * minute
  parse := parseClock

/-- Sunday 2026-10-25 in the zone Europe/Berlin at 00:30 local time, with local
midnight as the instant 0: at 03:00 the clocks go back to 02:00, so the local
times from 03:00 on are one hour later than on a day of 24 hours. -/
def fallBackDay : TimeLib where
  now := 30 * minute
  today := fun h m => if h < 3 then h * hour + m * minute else (h + 1) * hour + m * minute
  parse := parseClock

/-- An engine whose `run_at` is not a time of day; `Engine.Validate` looks at the
interval only. -/
def badRunAtCfg : config.Engine where
  disableRunOnStart := false
  interval := minute
  runAt := "noon".toList

/-- Whether every tick among the events is followed at once by a call of
`runJob`. -/
def tickThenJob : List Event → Bool
  | [] => true
  | .tick :: .job _ :: rest => tickThenJob rest
  | .tick :: _ => false
  | .job _ :: rest => tickThenJob rest
  | .arm _ :: rest => tickThenJob rest
  | .stopped :: rest => tickThenJob rest
  | .timerError _ :: rest => tickThenJob rest

/-- The number of ticks that the `select` takes before it finds the context
cancelled. -/
def ticksTaken (choices : List Choice) : Nat :=
  (choices.takeWhile fun c => c == Choice.tick).length

/-! ## Configurations for the statements about the validation -/

/-- The valid configuration of `TestConfig_Validate`, with `retries` given. -/
def validTestCfg (retries : Int) : config.Config where
  engine := { disableRunOnStart := false, interval := minute, runAt := [] }
  handlers := some [
    { name := "handler1".toList,
      handler :=
        { type := [],
          http :=
            { url := "http://example.com".toList, method := "POST".toList, body := [],
              headers := [], queryParams := [], timeout := 0, expectedResponseCode := 0,
              retries := retries, retryInterval := 0, parallelRun := false },
          filter := { expectFalse := false, expression := [] } } }]

/-! ## A stand-in for the standard library, to run the model on examples -/

/-- The text after the first `?` of a URL. -/
def rawQuery (url : Str) : Str :=
  (url.dropWhile (fun c => c != '?')).drop 1

/-- Split at every `sep`. -/
def splitOnChar (sep : Char) : Str → List Str
  | [] => [[]]
  | c :: cs =>
    if c == sep then [] :: splitOnChar sep cs
    else
      match splitOnChar sep cs with
      | [] => [[c]]
      | x :: xs => (c :: x) :: xs

/-- A query `k1=v1&k2=v2` as `url.Values`, without escapes. -/
def parseQuery (q : Str) : Values :=
  (splitOnChar '&' q).foldl
    (fun vs kv =>
      if kv = [] then vs
      else Values.add vs (kv.takeWhile (fun c => c != '=')) ((kv.dropWhile (fun c => c != '=')).drop 1))
    []

/-- A standard library that accepts every method and URL, leaves header keys as
they are, reads the query after the first `?`, and decodes every body to an
empty result list. -/
def simpleStd : Stdlib where
  newRequest := fun method url body => .ok ⟨method, url, [], body⟩
  canonicalHeaderKey := fun k => k
  query := fun url => parseQuery (rawQuery url)
  decode := fun _ => .ok []

/-- A stand-in for `expr.Eval` that knows the expressions of `TestFilter_Handle`. -/
def testEval (e : Str) : Except Str Value :=
  if e = "2 > 1".toList then .ok (.bool true)
  else if e = "2 < 1".toList then .ok (.bool false)
  else if e = "12 == 12".toList then .ok (.bool true)
  else if e = ['"', 's', '"'] then .ok (.other ['s'])
  else .error "unexpected token".toList

/-- The configuration of the test "Fail after all retries" of `TestHandler_Handle`. -/
def retryTestCfg : HTTPHandler where
  url := "http://127.0.0.1/test-url".toList
  method := "GET".toList
  body := []
  headers := []
  queryParams := []
  timeout := 0
  expectedResponseCode := 200
  retries := 2
  retryInterval := 0
  parallelRun := false

/-- A server that answers every request with status 500, under a context that
is never cancelled. -/
def failingEnv : Env where
  send := fun _ _ => .ok ⟨500, []⟩
  cancelled := fun _ => false
  ctxErr := "context canceled".toList

/-- A server that answers the first request with status 500 and the later ones
with status 200, under a context that is never cancelled. -/
def recoveringEnv : Env where
  send := fun attempt _ => if attempt = 0 then .ok ⟨500, []⟩ else .ok ⟨200, []⟩
  cancelled := fun _ => false
  ctxErr := "context canceled".toList

/-- A handler with one retry whose URL template has the placeholder `{{ x }}`. -/
def placeholderCfg : HTTPHandler where
  url := "http://127.0.0.1/{{ x }}".toList
  method := "GET".toList
  body := []
  headers := []
  queryParams := []
  timeout := 0
  expectedResponseCode := 200
  retries := 1
  retryInterval := 1000000000
  parallelRun := false

/-- A handler with the static header `X-Token: {{ t }}` and the static query
parameter `a=1`. -/
def queryCfg : HTTPHandler where
  url := "http://127.0.0.1/x".toList
  method := "GET".toList
  body := []
  headers := [("X-Token".toList, "{{ t }}".toList)]
  queryParams := [("a".toList, "1".toList)]
  timeout := 0
  expectedResponseCode := 200
  retries := 0
  retryInterval := 0
  parallelRun := false

/-- A world for examples: the stand-ins for the standard library and the
evaluator, and a server that answers every request with status 500. -/
def testWorld : World where
  std := simpleStd
  env := fun _ => failingEnv
  eval := testEval

/-- The type tags that `newHandler` knows. -/
def knownTypes : List Str := [[], "http".toList, "filter".toList]

/-- An evaluator that answers every expression with the boolean `true`: it never
reports an error and never returns a value of another type. -/
def alwaysTrue : Str → Except Str Value := fun _ => .ok (.bool true)

/-! ## The token syntax in the words of the specification -/

/-- A token: `{{`, optional white space, a key (a non-empty run of characters
that are neither white space nor `}`), optional white space, `}}`. -/
def IsTokenW (ws : Char → Bool) (m k : Str) : Prop :=
  ∃ w1 w2 : Str, m = '{' :: '{' :: (w1 ++ (k ++ (w2 ++ ['}', '}']))) ∧
    (∀ c ∈ w1, ws c = true) ∧ (∀ c ∈ w2, ws c = true) ∧
    k ≠ [] ∧ ∀ c ∈ k, isKeyChar ws c = true

/-- A token of the regexp of the source, where white space is the class `\s`. -/
def IsToken (m k : Str) : Prop := IsTokenW isReSpace m k

/-- Some substring of `s` matches the token pattern. -/
def ContainsToken (s : Str) : Prop :=
  ∃ a m b k, s = a ++ (m ++ b) ∧ IsToken m k

/-- No token starts at the first character of `s`. -/
def NoTokenAtHead (ws : Char → Bool) (s : Str) : Prop :=
  ∀ m k rest, s = m ++ rest → ¬ IsTokenW ws m k

/-- The expansion of a template in the words of the specification: tokens are
taken leftmost and without overlap, each is replaced by the value that `ctx`
has for `norm key`, and the text outside tokens is kept.  `ws` is the class of
white space and `norm` the normalisation of the key before the lookup. -/
inductive ExpansionW (ws : Char → Bool) (norm : Str → Str) (ctx : Data) : Str → Str → Prop
  | done : ExpansionW ws norm ctx [] []
  | text (c : Char) (s out : Str) : NoTokenAtHead ws (c :: s) →
      ExpansionW ws norm ctx s out → ExpansionW ws norm ctx (c :: s) (c :: out)
  | token (m k rest v out : Str) : IsTokenW ws m k → ctx.lookup (norm k) = some v →
      ExpansionW ws norm ctx rest out → ExpansionW ws norm ctx (m ++ rest) (v ++ out)

/-- The expansion with the white space of the regexp (`\s`) and the key looked
up after `strings.TrimSpace`. -/
def Expansion (ctx : Data) (t out : Str) : Prop :=
  ExpansionW isReSpace trimSpace ctx t out

/-- The expansion of `ExpansionW` as a function, with `fuel` steps left; `none`
when a key is absent. -/
def expandFuel (ws : Char → Bool) (norm : Str → Str) (ctx : Data) : Nat → Str → Option Str
  | _, [] => some []
  | 0, _ :: _ => none
  | fuel + 1, c :: cs =>
    match matchPrefixW ws (c :: cs) with
    | some m =>
      match ctx.lookup (norm m.group) with
      | some v => (expandFuel ws norm ctx fuel m.rest).map (fun out => v ++ out)
      | none => none
    | none => (expandFuel ws norm ctx fuel cs).map (fun out => c :: out)

/-- The expansion of `ExpansionW` as a function. -/
def expandW (ws : Char → Bool) (norm : Str → Str) (ctx : Data) (s : Str) : Option Str :=
  expandFuel ws norm ctx s.length s

/-- The matches that `re.FindAllString(s, -1)` returns, with `fuel` steps left:
the tokens that `ReplaceAllStringFunc` visits. -/
def findAllFuel : Nat → Str → List Str
  | 0, _ => []
  | _ + 1, [] => []
  | fuel + 1, c :: cs =>
    match matchPrefix (c :: cs) with
    | some m => m.text :: findAllFuel fuel m.rest
    | none => findAllFuel fuel cs

/-- The tokens occurring in `s`, leftmost and without overlap. -/
def findAllString (s : Str) : List Str := findAllFuel s.length s

/-! ## Validity of a configuration in the words of the specification -/

/-- The text in which each placeholder `{{ key }}` is replaced by the quoted
literal `"key"`, the tokens taken leftmost and without overlap and the key
trimmed as in `replacePlaceholders`. -/
inductive Quoted : Str → Str → Prop
  | done : Quoted [] []
  | text (c : Char) (s out : Str) : NoTokenAtHead isReSpace (c :: s) → Quoted s out →
      Quoted (c :: s) (c :: out)
  | token (m k rest out : Str) : IsToken m k → Quoted rest out →
      Quoted (m ++ rest) (('"' :: (trimSpace k ++ ['"'])) ++ out)

/-- A valid handler: of type `""` or `"http"` with a method and a URL, or of type
`"filter"` with an expression that evaluates once its placeholders are quoted. -/
def ValidHandler (eval : Str → Except Str Value) (h : config.Handler) : Prop :=
  ((h.type = [] ∨ h.type = "http".toList) ∧ h.http.method ≠ [] ∧ h.http.url ≠ []) ∨
    (h.type = "filter".toList ∧ h.filter.expression ≠ [] ∧
      ∃ q v, Quoted h.filter.expression q ∧ eval q = .ok v)

/-! ## The anchored matcher agrees with the token syntax -/

theorem takeWhile_run {α : Type} (p : α → Bool) (w x : List α)
    (hw : ∀ c ∈ w, p c = true) (hx : ∀ c ∈ x.head?, p c = false) :
    (w ++ x).takeWhile p = w := by
  rw [List.takeWhile_append_of_pos hw]
  cases x with
  | nil => simp
  | cons a x => simp [hx a (by simp)]

theorem dropWhile_run {α : Type} (p : α → Bool) (w x : List α)
    (hw : ∀ c ∈ w, p c = true) (hx : ∀ c ∈ x.head?, p c = false) :
    (w ++ x).dropWhile p = x := by
  rw [List.dropWhile_append_of_pos hw]
  cases x with
  | nil => simp
  | cons a x => simp [hx a (by simp)]

theorem isKeyChar_not_ws {ws : Char → Bool} {c : Char} (h : isKeyChar ws c = true) :
    ws c = false := by
  simp [isKeyChar] at h
  exact h.1

theorem ws_not_isKeyChar {ws : Char → Bool} {c : Char} (h : ws c = true) :
    isKeyChar ws c = false := by
  simp [isKeyChar, h]

theorem matchPrefixW_sound {ws : Char → Bool} {s : Str} {m : Match}
    (h : matchPrefixW ws s = some m) :
    s = m.text ++ m.rest ∧ IsTokenW ws m.text m.group := by
  unfold matchPrefixW at h
  split at h
  · rename_i r
    simp only at h
    split at h
    · rename_i k0 r3 a k rest hk hr3
      cases h
      refine ⟨?_, r.takeWhile ws, (r.dropWhile ws |>.dropWhile (isKeyChar ws)).takeWhile ws,
        rfl, ?_, ?_, ?_, ?_⟩
      · have e1 := List.takeWhile_append_dropWhile ws r
        have e2 := List.takeWhile_append_dropWhile (isKeyChar ws) (r.dropWhile ws)
        have e3 := List.takeWhile_append_dropWhile ws
          ((r.dropWhile ws).dropWhile (isKeyChar ws))
        rw [hr3] at e3
        simp only [List.cons_append, List.append_assoc, List.nil_append]
        rw [e3, e2, e1]
      · intro c hc
        exact (List.mem_takeWhile_imp hc)
      · intro c hc
        exact (List.mem_takeWhile_imp hc)
      · rw [hk]; simp
      · intro c hc
        exact (List.mem_takeWhile_imp hc)
    · cases h
  · cases h

theorem matchPrefixW_complete {ws : Char → Bool} (hws : ws '}' = false) {m k : Str}
    (rest : Str) (h : IsTokenW ws m k) : matchPrefixW ws (m ++ rest) = some ⟨m, k, rest⟩ := by
  obtain ⟨w1, w2, rfl, hw1, hw2, hk, hkc⟩ := h
  obtain ⟨a, k, rfl⟩ := List.exists_cons_of_ne_nil hk
  have ha : ws a = false := isKeyChar_not_ws (hkc a (by simp))
  have t1 : (w1 ++ ((a :: k) ++ (w2 ++ ('}' :: '}' :: rest)))).takeWhile ws = w1 :=
    takeWhile_run ws w1 _ hw1 (by simp [ha])
  have d1 : (w1 ++ ((a :: k) ++ (w2 ++ ('}' :: '}' :: rest)))).dropWhile ws
      = (a :: k) ++ (w2 ++ ('}' :: '}' :: rest)) :=
    dropWhile_run ws w1 _ hw1 (by simp [ha])
  have hd : ∀ c ∈ (w2 ++ ('}' :: '}' :: rest)).head?, isKeyChar ws c = false := by
    intro c hc
    cases w2 with
    | nil => simp at hc; subst hc; simp [isKeyChar]
    | cons b w2 => simp at hc; subst hc; exact ws_not_isKeyChar (hw2 _ (by simp))
  have t2 : ((a :: k) ++ (w2 ++ ('}' :: '}' :: rest))).takeWhile (isKeyChar ws) = a :: k :=
    takeWhile_run _ _ _ hkc hd
  have d2 : ((a :: k) ++ (w2 ++ ('}' :: '}' :: rest))).dropWhile (isKeyChar ws)
      = w2 ++ ('}' :: '}' :: rest) :=
    dropWhile_run _ _ _ hkc hd
  have hb : ∀ c ∈ ('}' :: '}' :: rest).head?, ws c = false := by
    intro c hc
    simp at hc
    subst hc
    exact hws
  have t3 : (w2 ++ ('}' :: '}' :: rest)).takeWhile ws = w2 := takeWhile_run _ _ _ hw2 hb
  have d3 : (w2 ++ ('}' :: '}' :: rest)).dropWhile ws = '}' :: '}' :: rest :=
    dropWhile_run _ _ _ hw2 hb
  have e : '{' :: '{' :: (w1 ++ ((a :: k) ++ (w2 ++ ['}', '}']))) ++ rest
      = '{' :: '{' :: (w1 ++ ((a :: k) ++ (w2 ++ ('}' :: '}' :: rest)))) := by simp
  rw [e]
  simp only [matchPrefixW, t1, d1, t2, d2, t3, d3]

theorem isReSpace_rbrace : isReSpace '}' = false := by decide

theorem isSpace_rbrace : isSpace '}' = false := by decide

theorem matchPrefix_sound {s : Str} {m : Match} (h : matchPrefix s = some m) :
    s = m.text ++ m.rest ∧ IsToken m.text m.group :=
  matchPrefixW_sound h

theorem matchPrefix_complete {m k : Str} (rest : Str) (h : IsToken m k) :
    matchPrefix (m ++ rest) = some ⟨m, k, rest⟩ :=
  matchPrefixW_complete isReSpace_rbrace rest h

theorem IsTokenW.length_ge {ws : Char → Bool} {m k : Str} (h : IsTokenW ws m k) :
    5 ≤ m.length := by
  obtain ⟨w1, w2, rfl, -, -, hk, -⟩ := h
  obtain ⟨a, k, rfl⟩ := List.exists_cons_of_ne_nil hk
  simp
  omega

theorem matchPrefixW_rest_lt {ws : Char → Bool} {s : Str} {m : Match}
    (h : matchPrefixW ws s = some m) : m.rest.length < s.length := by
  obtain ⟨hs, ht⟩ := matchPrefixW_sound h
  have := ht.length_ge
  rw [hs, List.length_append]
  omega

/-! ## Unfolding `ReplaceAllStringFunc` and `MatchString` -/

theorem replaceAllFuel_enough (repl : Str → Str) :
    ∀ (n k : Nat) (s : Str), s.length ≤ n → s.length ≤ k →
      replaceAllFuel repl n s = replaceAllFuel repl k s := by
  intro n
  induction n with
  | zero =>
    intro k s hn hk
    have : s = [] := List.length_eq_zero.mp (by omega)
    subst this
    cases k <;> rfl
  | succ n ih =>
    intro k s hn hk
    cases s with
    | nil => cases k <;> rfl
    | cons c cs =>
      cases k with
      | zero => simp at hk
      | succ k =>
        simp only [replaceAllFuel]
        cases hm : matchPrefix (c :: cs) with
        | none =>
          simp only
          rw [ih k cs (by simpa using hn) (by simpa using hk)]
        | some m =>
          simp only
          have hlt := matchPrefixW_rest_lt hm
          simp only [List.length_cons] at hlt hn hk
          rw [ih k m.rest (by omega) (by omega)]

theorem replaceAll_nil (repl : Str → Str) : replaceAllStringFunc repl [] = [] := rfl

theorem replaceAll_cons_none (repl : Str → Str) {c : Char} {cs : Str}
    (h : matchPrefix (c :: cs) = none) :
    replaceAllStringFunc repl (c :: cs) = c :: replaceAllStringFunc repl cs := by
  simp only [replaceAllStringFunc, List.length_cons, replaceAllFuel, h]

theorem replaceAll_cons_some (repl : Str → Str) {c : Char} {cs : Str} {m : Match}
    (h : matchPrefix (c :: cs) = some m) :
    replaceAllStringFunc repl (c :: cs)
      = repl m.text ++ replaceAllStringFunc repl m.rest := by
  have hlt := matchPrefixW_rest_lt h
  simp only [List.length_cons] at hlt
  simp only [replaceAllStringFunc, List.length_cons, replaceAllFuel, h]
  rw [replaceAllFuel_enough repl cs.length m.rest.length m.rest (by omega) (le_refl _)]

/-- Induction along the scan of `ReplaceAllStringFunc`. -/
theorem scan_induction {P : Str → Prop} (nil : P [])
    (tok : ∀ c cs m, matchPrefix (c :: cs) = some m → P m.rest → P (c :: cs))
    (txt : ∀ c cs, matchPrefix (c :: cs) = none → P cs → P (c :: cs)) :
    ∀ s, P s := by
  suffices H : ∀ (n : Nat) (s : Str), s.length ≤ n → P s from fun s => H s.length s (le_refl _)
  intro n
  induction n with
  | zero =>
    intro s hs
    have : s = [] := List.length_eq_zero.mp (by omega)
    subst this
    exact nil
  | succ n ih =>
    intro s hs
    cases s with
    | nil => exact nil
    | cons c cs =>
      simp only [List.length_cons] at hs
      cases hm : matchPrefix (c :: cs) with
      | none => exact txt c cs hm (ih cs (by omega))
      | some m =>
        have hlt := matchPrefixW_rest_lt hm
        simp only [List.length_cons] at hlt
        exact tok c cs m hm (ih m.rest (by omega))

theorem matchString_cons (c : Char) (cs : Str) :
    matchString (c :: cs) = ((matchPrefix (c :: cs)).isSome || matchString cs) := rfl

theorem matchString_of_containsToken {s : Str} (h : ContainsToken s) :
    matchString s = true := by
  obtain ⟨a, m, b, k, rfl, hm⟩ := h
  induction a with
  | nil =>
    have hc := matchPrefix_complete b hm
    have hl := hm.length_ge
    rw [List.nil_append]
    generalize m ++ b = mb at hc
    cases mb with
    | nil => cases hc
    | cons c cs => rw [matchString_cons, hc]; rfl
  | cons x a ih =>
    rw [List.cons_append, matchString_cons, ih, Bool.or_true]

theorem containsToken_of_matchString {s : Str} (h : matchString s = true) :
    ContainsToken s := by
  induction s with
  | nil => simp [matchString] at h
  | cons c cs ih =>
    rw [matchString_cons, Bool.or_eq_true] at h
    rcases h with h | h
    · obtain ⟨m, hm⟩ := Option.isSome_iff_exists.mp h
      obtain ⟨hs, ht⟩ := matchPrefix_sound hm
      exact ⟨[], m.text, m.rest, m.group, by simpa using hs, ht⟩
    · obtain ⟨a, m, b, k, hs, ht⟩ := ih h
      exact ⟨c :: a, m, b, k, by simp [hs], ht⟩

theorem matchString_iff (s : Str) : matchString s = true ↔ ContainsToken s :=
  ⟨containsToken_of_matchString, matchString_of_containsToken⟩

theorem matchString_append_left (a : Str) {s : Str} (h : matchString s = true) :
    matchString (a ++ s) = true := by
  induction a with
  | nil => simpa using h
  | cons x a ih => rw [List.cons_append, matchString_cons, ih, Bool.or_true]

theorem matchString_append_right {s : Str} (b : Str) (h : matchString s = true) :
    matchString (s ++ b) = true := by
  obtain ⟨a, m, c, k, rfl, hm⟩ := containsToken_of_matchString h
  exact matchString_of_containsToken ⟨a, m, c ++ b, k, by simp, hm⟩

theorem replaceAll_of_no_match (repl : Str → Str) {s : Str} (h : matchString s = false) :
    replaceAllStringFunc repl s = s := by
  induction s with
  | nil => rfl
  | cons c cs ih =>
    rw [matchString_cons, Bool.or_eq_false_iff] at h
    have hm : matchPrefix (c :: cs) = none := by
      cases hx : matchPrefix (c :: cs) with
      | none => rfl
      | some m => rw [hx] at h; simp at h
    rw [replaceAll_cons_none repl hm, ih h.2]

/-! ## The tokens of a template -/

theorem findAllFuel_enough :
    ∀ (n k : Nat) (s : Str), s.length ≤ n → s.length ≤ k →
      findAllFuel n s = findAllFuel k s := by
  intro n
  induction n with
  | zero =>
    intro k s hn hk
    have : s = [] := List.length_eq_zero.mp (by omega)
    subst this
    cases k <;> rfl
  | succ n ih =>
    intro k s hn hk
    cases s with
    | nil => cases k <;> rfl
    | cons c cs =>
      cases k with
      | zero => simp at hk
      | succ k =>
        simp only [findAllFuel]
        cases hm : matchPrefix (c :: cs) with
        | none =>
          simp only
          rw [ih k cs (by simpa using hn) (by simpa using hk)]
        | some m =>
          simp only
          have hlt := matchPrefixW_rest_lt hm
          simp only [List.length_cons] at hlt hn hk
          rw [ih k m.rest (by omega) (by omega)]

theorem findAll_cons_none {c : Char} {cs : Str} (h : matchPrefix (c :: cs) = none) :
    findAllString (c :: cs) = findAllString cs := by
  simp only [findAllString, List.length_cons, findAllFuel, h]

theorem findAll_cons_some {c : Char} {cs : Str} {m : Match}
    (h : matchPrefix (c :: cs) = some m) :
    findAllString (c :: cs) = m.text :: findAllString m.rest := by
  have hlt := matchPrefixW_rest_lt h
  simp only [List.length_cons] at hlt
  simp only [findAllString, List.length_cons, findAllFuel, h]
  rw [findAllFuel_enough cs.length m.rest.length m.rest (by omega) (le_refl _)]

/-! ## The key of a token -/

theorem isSpace_of_isReSpace {c : Char} (h : isReSpace c = true) : isSpace c = true := by
  simp only [isReSpace, Bool.or_eq_true, beq_iff_eq] at h
  rcases h with (((rfl | rfl) | rfl) | rfl) | rfl <;> decide

theorem trimSpace_pad (w1 x w2 : Str) (h1 : ∀ c ∈ w1, isSpace c = true)
    (h2 : ∀ c ∈ w2, isSpace c = true) : trimSpace (w1 ++ (x ++ w2)) = trimSpace x := by
  unfold trimSpace
  rw [List.dropWhile_append_of_pos h1, List.dropWhile_append]
  split
  · rename_i he
    have hx : x.dropWhile isSpace = [] := by simpa using he
    have hw : w2.dropWhile isSpace = [] := List.dropWhile_eq_nil_iff.mpr h2
    rw [hx, hw]
  · rw [List.reverse_append, List.dropWhile_append_of_pos]
    intro c hc
    exact h2 c (List.mem_reverse.mp hc)

theorem keyOf_token {m k : Str} (h : IsToken m k) : keyOf m = trimSpace k := by
  obtain ⟨w1, w2, rfl, hw1, hw2, -, -⟩ := h
  have e : (('{' :: '{' :: (w1 ++ (k ++ (w2 ++ ['}', '}'])))).drop 2).take
      (('{' :: '{' :: (w1 ++ (k ++ (w2 ++ ['}', '}'])))).length - 2 - 2)
      = w1 ++ (k ++ w2) := by
    have hl : ('{' :: '{' :: (w1 ++ (k ++ (w2 ++ ['}', '}'])))).length - 2 - 2
        = (w1 ++ (k ++ w2)).length := by
      simp only [List.length_cons, List.length_append, List.length_nil]
      omega
    rw [hl]
    have : ('{' :: '{' :: (w1 ++ (k ++ (w2 ++ ['}', '}'])))).drop 2
        = (w1 ++ (k ++ w2)) ++ ['}', '}'] := by simp
    rw [this, List.take_left]
  unfold keyOf
  rw [e]
  exact trimSpace_pad w1 k w2 (fun c hc => isSpace_of_isReSpace (hw1 c hc))
    (fun c hc => isSpace_of_isReSpace (hw2 c hc))

/-! ## The source's replacement pass and the expansion of the specification -/

theorem noTokenAtHead_of_none {ws : Char → Bool} (hws : ws '}' = false) {s : Str}
    (h : matchPrefixW ws s = none) : NoTokenAtHead ws s := by
  intro m k rest hs hm
  rw [hs, matchPrefixW_complete hws rest hm] at h
  cases h

theorem replaceOne_token {ctx : Data} {m k v : Str} (hm : IsToken m k)
    (hv : ctx.lookup (trimSpace k) = some v) : replaceOne ctx m = v := by
  simp only [replaceOne, keyOf_token hm, hv]

/-- When every token of `t` has its key in `ctx`, the replacement pass of the
source computes the expansion. -/
theorem expansion_of_keys (ctx : Data) :
    ∀ t : Str, (∀ m ∈ findAllString t, ctx.lookup (keyOf m) ≠ none) →
      Expansion ctx t (replaceAllStringFunc (replaceOne ctx) t) := by
  refine scan_induction (fun _ => ExpansionW.done) ?_ ?_
  · intro c cs m hm ih hkeys
    rw [findAll_cons_some hm] at hkeys
    rw [replaceAll_cons_some _ hm]
    obtain ⟨hs, ht⟩ := matchPrefix_sound hm
    have hk := hkeys m.text (by simp)
    rw [keyOf_token ht] at hk
    obtain ⟨v, hv⟩ := Option.ne_none_iff_exists'.mp hk
    rw [replaceOne_token ht hv, hs]
    exact ExpansionW.token m.text m.group m.rest v _ ht hv
      (ih (fun x hx => hkeys x (by simp [hx])))
  · intro c cs hm ih hkeys
    rw [findAll_cons_none hm] at hkeys
    rw [replaceAll_cons_none _ hm]
    exact ExpansionW.text c cs _ (noTokenAtHead_of_none isReSpace_rbrace hm) (ih hkeys)

/-- An expansion of `t` is what the replacement pass of the source computes. -/
theorem replaceAll_of_expansion {ctx : Data} {t out : Str} (h : Expansion ctx t out) :
    replaceAllStringFunc (replaceOne ctx) t = out := by
  unfold Expansion at h
  induction h with
  | done => rfl
  | text c s out hno _ ih =>
    have hm : matchPrefix (c :: s) = none := by
      cases hx : matchPrefix (c :: s) with
      | none => rfl
      | some m =>
        obtain ⟨hs, ht⟩ := matchPrefix_sound hx
        exact absurd ht (hno _ _ _ hs)
    rw [replaceAll_cons_none _ hm, ih]
  | token m k rest v out hm hv _ ih =>
    have hc := matchPrefix_complete rest hm
    have hl := hm.length_ge
    generalize hmb : m ++ rest = mb at hc
    cases mb with
    | nil => cases hc
    | cons c cs => rw [replaceAll_cons_some _ hc, replaceOne_token hm hv, ih]

theorem expansion_unique {ctx : Data} {t o1 o2 : Str} (h1 : Expansion ctx t o1)
    (h2 : Expansion ctx t o2) : o1 = o2 := by
  rw [← replaceAll_of_expansion h1, ← replaceAll_of_expansion h2]

/-- A token whose key is absent stays in the text, where `MatchString` finds it. -/
theorem matchString_of_missing (ctx : Data) :
    ∀ t : Str, (∃ m ∈ findAllString t, ctx.lookup (keyOf m) = none) →
      matchString (replaceAllStringFunc (replaceOne ctx) t) = true := by
  refine scan_induction ?_ ?_ ?_
  · rintro ⟨m, hm, -⟩
    simp [findAllString, findAllFuel] at hm
  · intro c cs m hm ih hex
    rw [findAll_cons_some hm] at hex
    rw [replaceAll_cons_some _ hm]
    obtain ⟨x, hx, hnone⟩ := hex
    rcases List.mem_cons.mp hx with rfl | hx
    · have hr : replaceOne ctx m.text = m.text := by simp only [replaceOne, hnone]
      rw [hr]
      apply matchString_append_right
      exact matchString_of_containsToken
        ⟨[], m.text, [], m.group, by simp, (matchPrefix_sound hm).2⟩
    · exact matchString_append_left _ (ih ⟨x, hx, hnone⟩)
  · intro c cs hm ih hex
    rw [findAll_cons_none hm] at hex
    rw [replaceAll_cons_none _ hm, matchString_cons, ih hex, Bool.or_true]

theorem replacePlaceholders_snd (t : Str) (ctx : Data) :
    (replacePlaceholders t ctx).2 = !matchString (replaceAllStringFunc (replaceOne ctx) t) := by
  unfold replacePlaceholders
  cases hx : matchString (replaceAllStringFunc (replaceOne ctx) t) <;> simp [hx]

theorem replacePlaceholders_of_ok {t : Str} {ctx : Data}
    (h : (replacePlaceholders t ctx).2 = true) :
    replacePlaceholders t ctx = (replaceAllStringFunc (replaceOne ctx) t, true) ∧
      matchString (replaceAllStringFunc (replaceOne ctx) t) = false := by
  have h2 := replacePlaceholders_snd t ctx
  rw [h] at h2
  have hf : matchString (replaceAllStringFunc (replaceOne ctx) t) = false := by
    cases hx : matchString (replaceAllStringFunc (replaceOne ctx) t) with
    | false => rfl
    | true => rw [hx] at h2; cases h2
  refine ⟨?_, hf⟩
  unfold replacePlaceholders
  simp only [hf]
  rfl

theorem replacePlaceholders_of_fail {t : Str} {ctx : Data}
    (h : (replacePlaceholders t ctx).2 = false) :
    replacePlaceholders t ctx = ([], false) ∧
      matchString (replaceAllStringFunc (replaceOne ctx) t) = true := by
  have h2 := replacePlaceholders_snd t ctx
  rw [h] at h2
  have hf : matchString (replaceAllStringFunc (replaceOne ctx) t) = true := by
    cases hx : matchString (replaceAllStringFunc (replaceOne ctx) t) with
    | true => rfl
    | false => rw [hx] at h2; cases h2
  refine ⟨?_, hf⟩
  unfold replacePlaceholders
  simp only [hf]
  rfl

theorem replacePlaceholders_no_match {s : Str} (ctx : Data) (h : matchString s = false) :
    replacePlaceholders s ctx = (s, true) := by
  unfold replacePlaceholders
  simp only [replaceAll_of_no_match _ h, h]
  rfl

/-- The expansion relation determines the function `expandW`. -/
theorem expandFuel_of_expansion {ws : Char → Bool} (hws : ws '}' = false) {norm : Str → Str}
    {ctx : Data} {t out : Str} (h : ExpansionW ws norm ctx t out) :
    ∀ n, t.length ≤ n → expandFuel ws norm ctx n t = some out := by
  induction h with
  | done => intro n _; cases n <;> rfl
  | text c s out hno _ ih =>
    intro n hn
    cases n with
    | zero => simp at hn
    | succ n =>
      have hm : matchPrefixW ws (c :: s) = none := by
        cases hx : matchPrefixW ws (c :: s) with
        | none => rfl
        | some m =>
          obtain ⟨hs, ht⟩ := matchPrefixW_sound hx
          exact absurd ht (hno _ _ _ hs)
      simp only [expandFuel, hm, ih n (by simpa using hn), Option.map_some']
  | token m k rest v out hm hv _ ih =>
    intro n hn
    have hc := matchPrefixW_complete hws rest hm
    have hl := hm.length_ge
    rw [List.length_append] at hn
    generalize hmb : m ++ rest = mb at hc
    cases mb with
    | nil => cases hc
    | cons c cs =>
      cases n with
      | zero => omega
      | succ n =>
        simp only [expandFuel, hc, hv, ih n (by omega), Option.map_some']

theorem expandW_of_expansion {ws : Char → Bool} (hws : ws '}' = false) {norm : Str → Str}
    {ctx : Data} {t out : Str} (h : ExpansionW ws norm ctx t out) :
    expandW ws norm ctx t = some out :=
  expandFuel_of_expansion hws h t.length (le_refl _)

/-- The expanded string is the same when `replacePlaceholders` is applied again,
whether the first application succeeded or not. -/
theorem replacePlaceholders_idempotent_string (t : Str) (ctx : Data) :
    (replacePlaceholders (replacePlaceholders t ctx).1 ctx).1 = (replacePlaceholders t ctx).1 := by
  cases hok : (replacePlaceholders t ctx).2 with
  | true =>
    obtain ⟨he, hno⟩ := replacePlaceholders_of_ok hok
    rw [he, replacePlaceholders_no_match ctx hno]
  | false =>
    rw [(replacePlaceholders_of_fail hok).1]
    rfl

/-! ## The tests of `TestReplacePlaceholders` -/

theorem test_multiple_replacements :
    replacePlaceholders "{{ key1 }} and {{key2}}".toList
      [("key1".toList, "value1".toList), ("key2".toList, "value2".toList)]
      = ("value1 and value2".toList, true) := by decide

theorem test_missing_key :
    replacePlaceholders
      "{{ data-source.description }}, {{ data-source.title }}".toList
      [("data-source.description".toList, "test1".toList)]
      = ([], false) := by decide

theorem test_placeholder_with_spaces :
    replacePlaceholders "{{   key1   }}".toList [("key1".toList, "value1".toList)]
      = ("value1".toList, true) := by decide

theorem test_no_corresponding_key :
    replacePlaceholders "{{ key1 }}".toList [] = ([], false) := by decide

/-! ## Placeholder substitution: the claims -/

/-- C1, as stated, fails: for the template `{{ a }}` and the context that maps
`a` to `{{ a }}`, the only token has its key in the context, yet
`replacePlaceholders` returns `ok = false`. -/
theorem replacePlaceholders_fail_iff_missing_refuted :
    ¬ ((replacePlaceholders "{{ a }}".toList [("a".toList, "{{ a }}".toList)]).2 = false ↔
        ∃ m ∈ findAllString "{{ a }}".toList,
          List.lookup (keyOf m) [("a".toList, "{{ a }}".toList)] = none) := by
  decide

/-- C1, amended: `replacePlaceholders t ctx` returns `ok = false` if and only if
some token of `t` has a key that is not a key of `ctx`, or every token is
replaced by its value and the expanded text itself contains a token. -/
theorem replacePlaceholders_fail_iff (t : Str) (ctx : Data) :
    (replacePlaceholders t ctx).2 = false ↔
      (∃ m ∈ findAllString t, ctx.lookup (keyOf m) = none) ∨
        (∃ out, Expansion ctx t out ∧ ContainsToken out) := by
  constructor
  · intro h
    have hm := (replacePlaceholders_of_fail h).2
    by_cases hex : ∃ m ∈ findAllString t, ctx.lookup (keyOf m) = none
    · exact Or.inl hex
    · refine Or.inr ⟨_, expansion_of_keys ctx t ?_, containsToken_of_matchString hm⟩
      intro m hmem hnone
      exact hex ⟨m, hmem, hnone⟩
  · intro h
    rw [replacePlaceholders_snd]
    rcases h with h | ⟨out, hexp, hc⟩
    · rw [matchString_of_missing ctx t h]
      rfl
    · rw [replaceAll_of_expansion hexp, matchString_of_containsToken hc]
      rfl

/-- C2, as stated, fails: for the template `{{{{ a }} }}` and the context that
maps `a` to `x`, the keys of the context cover the only token, the first
application returns `("", false)`, and the application to its expanded output
`""` returns `("", true)`. -/
theorem replacePlaceholders_idempotent_refuted :
    (∀ m ∈ findAllString "{{{{ a }} }}".toList,
        List.lookup (keyOf m) [("a".toList, "x".toList)] ≠ none) ∧
      replacePlaceholders
          (replacePlaceholders "{{{{ a }} }}".toList [("a".toList, "x".toList)]).1
          [("a".toList, "x".toList)]
        ≠ replacePlaceholders "{{{{ a }} }}".toList [("a".toList, "x".toList)] := by
  decide

/-- C2, amended: when `replacePlaceholders t ctx` returns `ok = true`, applying
`replacePlaceholders` with `ctx` to its expanded output gives the same string
and `ok = true` again. -/
theorem replacePlaceholders_idempotent (t : Str) (ctx : Data)
    (hok : (replacePlaceholders t ctx).2 = true) :
    replacePlaceholders (replacePlaceholders t ctx).1 ctx = replacePlaceholders t ctx := by
  obtain ⟨he, hno⟩ := replacePlaceholders_of_ok hok
  rw [he]
  exact replacePlaceholders_no_match ctx hno

theorem replacePlaceholders_idempotent_witness :
    (replacePlaceholders "{{ key1 }} and {{key2}}".toList
        [("key1".toList, "value1".toList), ("key2".toList, "value2".toList)]).2 = true ∧
      replacePlaceholders
          (replacePlaceholders "{{ key1 }} and {{key2}}".toList
            [("key1".toList, "value1".toList), ("key2".toList, "value2".toList)]).1
          [("key1".toList, "value1".toList), ("key2".toList, "value2".toList)]
        = replacePlaceholders "{{ key1 }} and {{key2}}".toList
            [("key1".toList, "value1".toList), ("key2".toList, "value2".toList)] :=
  ⟨by decide, replacePlaceholders_idempotent _ _ (by decide)⟩

/-- C3, as stated, fails, whichever class of white space is meant.  With the
white space of the regexp (`\s`), the template `{{<VT>k}}` has the token key
`<VT>k`, which the context `k -> v` does not have, yet the source returns
`("v", true)`: it looks up the key after `strings.TrimSpace`, which strips the
vertical tab.  With Unicode white space, `{{ <VT> k }}` is a token with key `k`,
yet the source returns the template unchanged with `ok = true`: its regexp takes
the vertical tab for a key character. -/
theorem replacePlaceholders_expansion_refuted :
    ((replacePlaceholders ['{', '{', '\x0b', 'k', '}', '}'] [(['k'], ['v'])]).2 = true ∧
      ¬ ExpansionW isReSpace id [(['k'], ['v'])] ['{', '{', '\x0b', 'k', '}', '}']
          (replacePlaceholders ['{', '{', '\x0b', 'k', '}', '}'] [(['k'], ['v'])]).1) ∧
    ((replacePlaceholders ['{', '{', ' ', '\x0b', ' ', 'k', ' ', '}', '}']
          [(['k'], ['v'])]).2 = true ∧
      ¬ ExpansionW isSpace id [(['k'], ['v'])]
          ['{', '{', ' ', '\x0b', ' ', 'k', ' ', '}', '}']
          (replacePlaceholders ['{', '{', ' ', '\x0b', ' ', 'k', ' ', '}', '}']
            [(['k'], ['v'])]).1) :=
  ⟨⟨by decide, fun h => absurd (expandW_of_expansion isReSpace_rbrace h) (by decide)⟩,
    ⟨by decide, fun h => absurd (expandW_of_expansion isSpace_rbrace h) (by decide)⟩⟩

/-- C3, amended: white space around the key is the class `\s` of the regexp
(tab, line feed, form feed, carriage return, space) and the key is looked up
after `strings.TrimSpace`.  When `replacePlaceholders t ctx` returns `ok = true`,
the expanded string is `t` with each token, found leftmost and without overlap,
replaced by the value of its trimmed key and all other text unchanged; the key
looked up does not depend on the white space around it; a template without a
token, the empty one included, is returned unchanged with `ok = true`. -/
theorem replacePlaceholders_expansion (t : Str) (ctx : Data) :
    ((replacePlaceholders t ctx).2 = true → Expansion ctx t (replacePlaceholders t ctx).1) ∧
      (∀ m m2 k, IsToken m k → IsToken m2 k → keyOf m = keyOf m2) ∧
      (¬ ContainsToken t → replacePlaceholders t ctx = (t, true)) ∧
      replacePlaceholders [] ctx = ([], true) := by
  refine ⟨?_, ?_, ?_, rfl⟩
  · intro hok
    obtain ⟨he, hno⟩ := replacePlaceholders_of_ok hok
    rw [he]
    apply expansion_of_keys
    intro m hm hnone
    rw [matchString_of_missing ctx t ⟨m, hm, hnone⟩] at hno
    cases hno
  · intro m m2 k h1 h2
    rw [keyOf_token h1, keyOf_token h2]
  · intro hno
    apply replacePlaceholders_no_match
    cases hx : matchString t with
    | false => rfl
    | true => exact absurd (containsToken_of_matchString hx) hno

theorem replacePlaceholders_expansion_witness :
    (replacePlaceholders "{{ key1 }} and {{key2}}".toList
        [("key1".toList, "value1".toList), ("key2".toList, "value2".toList)]).2 = true ∧
      Expansion [("key1".toList, "value1".toList), ("key2".toList, "value2".toList)]
        "{{ key1 }} and {{key2}}".toList
        (replacePlaceholders "{{ key1 }} and {{key2}}".toList
          [("key1".toList, "value1".toList), ("key2".toList, "value2".toList)]).1 :=
  ⟨by decide, (replacePlaceholders_expansion _ _).1 (by decide)⟩

/-- C4: when `replacePlaceholders` returns `ok = true` no substring of the
expanded string matches the token pattern, and when it returns `ok = false` the
expanded string is empty. -/
theorem replacePlaceholders_all_or_nothing (t : Str) (ctx : Data) :
    ((replacePlaceholders t ctx).2 = true → ¬ ContainsToken (replacePlaceholders t ctx).1) ∧
      ((replacePlaceholders t ctx).2 = false → (replacePlaceholders t ctx).1 = []) := by
  constructor
  · intro hok hc
    obtain ⟨he, hno⟩ := replacePlaceholders_of_ok hok
    rw [he] at hc
    rw [matchString_of_containsToken hc] at hno
    cases hno
  · intro hf
    rw [(replacePlaceholders_of_fail hf).1]

theorem replacePlaceholders_all_or_nothing_witness :
    ¬ ContainsToken (replacePlaceholders "{{   key1   }}".toList
        [("key1".toList, "value1".toList)]).1 ∧
      (replacePlaceholders "{{ key1 }}".toList []).1 = [] :=
  ⟨(replacePlaceholders_all_or_nothing _ _).1 (by decide),
    (replacePlaceholders_all_or_nothing _ _).2 (by decide)⟩

/-! ## The filter handler -/

/-- C5: when the substituted expression evaluates to a boolean `b`, `Handle`
returns no error, and it returns the single empty record `[{}]` if
`b != expect_false` and no record if `b == expect_false`. -/
theorem filter_semantics (eval : Str → Except Str Value) (f : filterHandler) (data : Data)
    (e : Str) (b : Bool) (hsub : replacePlaceholders f.cfg.expression data = (e, true))
    (hev : eval e = .ok (.bool b)) :
    f.Handle eval data = (if b != f.cfg.expectFalse then [[]] else [], none) := by
  unfold filterHandler.Handle
  rw [hsub]
  simp only [hev]
  cases b <;> cases f.cfg.expectFalse <;> rfl

theorem filter_semantics_witness :
    filterHandler.Handle testEval ⟨"test-filter".toList, ⟨false, "{{key}} == 12".toList⟩⟩
        [("key".toList, "12".toList)]
      = (if true != false then [[]] else [], none) :=
  filter_semantics testEval ⟨"test-filter".toList, ⟨false, "{{key}} == 12".toList⟩⟩
    [("key".toList, "12".toList)] "12 == 12".toList true (by decide) (by rfl)

/-- The substitution fails exactly when a key is missing or the expanded text
contains a token. -/
theorem substitution_fails_iff (t : Str) (ctx : Data) :
    (replacePlaceholders t ctx).2 = false ↔
      (∃ m ∈ findAllString t, ctx.lookup (keyOf m) = none) ∨
        (∃ out, Expansion ctx t out ∧ ContainsToken out) := by
  constructor
  · intro h
    have hm := (replacePlaceholders_of_fail h).2
    by_cases hex : ∃ m ∈ findAllString t, ctx.lookup (keyOf m) = none
    · exact Or.inl hex
    · refine Or.inr ⟨_, expansion_of_keys ctx t ?_, containsToken_of_matchString hm⟩
      intro m hmem hnone
      exact hex ⟨m, hmem, hnone⟩
  · intro h
    rw [replacePlaceholders_snd]
    rcases h with h | ⟨out, hexp, hc⟩
    · rw [matchString_of_missing ctx t h]
      rfl
    · rw [replaceAll_of_expansion hexp, matchString_of_containsToken hc]
      rfl

/-- The substitution succeeds with the text `out` exactly when `out` is the
expansion of the template and contains no token. -/
theorem substitution_ok_iff (t : Str) (ctx : Data) (out : Str) :
    replacePlaceholders t ctx = (out, true) ↔ Expansion ctx t out ∧ ¬ ContainsToken out := by
  constructor
  · intro h
    have hok : (replacePlaceholders t ctx).2 = true := by rw [h]
    obtain ⟨he, hno⟩ := replacePlaceholders_of_ok hok
    rw [h] at he
    have hout : out = replaceAllStringFunc (replaceOne ctx) t := congrArg Prod.fst he
    rw [hout]
    refine ⟨expansion_of_keys ctx t ?_, ?_⟩
    · intro m hm hnone
      rw [matchString_of_missing ctx t ⟨m, hm, hnone⟩] at hno
      cases hno
    · intro hc
      rw [matchString_of_containsToken hc] at hno
      cases hno
  · rintro ⟨hexp, hno⟩
    have hm : matchString out = false := by
      cases hx : matchString out with
      | false => rfl
      | true => exact absurd (containsToken_of_matchString hx) hno
    unfold replacePlaceholders
    simp only [replaceAll_of_expansion hexp, hm]
    rfl

/-- The errors of `filterHandler.Handle`, step by step: the substitution fails,
or the evaluator reports an error, or the result is not a boolean. -/
theorem filter_error_by_step (eval : Str → Except Str Value) (f : filterHandler)
    (data : Data) :
    ((f.Handle eval data).2 ≠ none ↔
        (replacePlaceholders f.cfg.expression data).2 = false ∨
        ((replacePlaceholders f.cfg.expression data).2 = true ∧
          ∃ err, eval (replacePlaceholders f.cfg.expression data).1 = .error err) ∨
        ((replacePlaceholders f.cfg.expression data).2 = true ∧
          ∃ r, eval (replacePlaceholders f.cfg.expression data).1 = .ok (.other r))) ∧
      ((f.Handle eval data).2 ≠ none → (f.Handle eval data).1 = []) ∧
      ((replacePlaceholders f.cfg.expression data).2 = true →
        ∀ r, eval (replacePlaceholders f.cfg.expression data).1 = .ok (.other r) →
          (f.Handle eval data).2 = some "expression did not return a boolean".toList) := by
  unfold filterHandler.Handle
  rcases hrp : replacePlaceholders f.cfg.expression data with ⟨e, ok⟩
  cases ok with
  | false => simp
  | true =>
    cases hev : eval e with
    | error err => simp [hev]
    | ok v =>
      cases v with
      | other r => simp [hev]
      | bool b => cases b <;> cases f.cfg.expectFalse <;> simp [hev]

/-- C6, as stated, fails: for the expression `{{ a }}` and the context that maps
`a` to `{{ a }}`, no placeholder of the expression has a key outside the context,
and the evaluator `alwaysTrue` reports no error and returns no value that is not
a boolean on any text, yet `Handle` returns an error. -/
theorem filter_error_iff_refuted :
    (filterHandler.Handle alwaysTrue ⟨"test-filter".toList, ⟨false, "{{ a }}".toList⟩⟩
        [("a".toList, "{{ a }}".toList)]).2
      = some "failed to replace placeholders in expression: some data not found".toList ∧
      ¬ (∃ m ∈ findAllString "{{ a }}".toList,
          List.lookup (keyOf m) [("a".toList, "{{ a }}".toList)] = none) ∧
      ¬ (∃ e err, alwaysTrue e = .error err) ∧
      ¬ (∃ e r, alwaysTrue e = .ok (.other r)) := by
  refine ⟨by decide, by decide, ?_, ?_⟩
  · rintro ⟨e, err, h⟩
    cases h
  · rintro ⟨e, r, h⟩
    cases h

/-- C6, amended: `Handle` returns an error if and only if a placeholder of the
expression has a key that is not in the context, or every placeholder is
replaced and the substituted expression itself contains a token, or the
evaluator reports an error on the substituted expression, or the evaluation
result is not a boolean; with an error the results are nil; in the non-boolean
case the error is "expression did not return a boolean". -/
theorem filter_error_iff (eval : Str → Except Str Value) (f : filterHandler) (data : Data) :
    ((f.Handle eval data).2 ≠ none ↔
        (∃ m ∈ findAllString f.cfg.expression, data.lookup (keyOf m) = none) ∨
        (∃ out, Expansion data f.cfg.expression out ∧ ContainsToken out) ∨
        (∃ out err, Expansion data f.cfg.expression out ∧ ¬ ContainsToken out ∧
          eval out = .error err) ∨
        (∃ out r, Expansion data f.cfg.expression out ∧ ¬ ContainsToken out ∧
          eval out = .ok (.other r))) ∧
      ((f.Handle eval data).2 ≠ none → (f.Handle eval data).1 = []) ∧
      (∀ out r, Expansion data f.cfg.expression out → ¬ ContainsToken out →
        eval out = .ok (.other r) →
          (f.Handle eval data).2 = some "expression did not return a boolean".toList) := by
  obtain ⟨hiff, hnil, hmsg⟩ := filter_error_by_step eval f data
  have hok : ∀ out, Expansion data f.cfg.expression out → ¬ ContainsToken out →
      (replacePlaceholders f.cfg.expression data).2 = true ∧
        (replacePlaceholders f.cfg.expression data).1 = out := by
    intro out hexp hno
    rw [(substitution_ok_iff _ _ out).mpr ⟨hexp, hno⟩]
    exact ⟨rfl, rfl⟩
  have hexp : (replacePlaceholders f.cfg.expression data).2 = true →
      Expansion data f.cfg.expression (replacePlaceholders f.cfg.expression data).1 ∧
        ¬ ContainsToken (replacePlaceholders f.cfg.expression data).1 := by
    intro h
    apply (substitution_ok_iff _ _ _).mp
    rw [← h]
  refine ⟨?_, hnil, ?_⟩
  · rw [hiff, substitution_fails_iff]
    constructor
    · rintro ((h | h) | ⟨h, err, he⟩ | ⟨h, r, hr⟩)
      · exact Or.inl h
      · exact Or.inr (Or.inl h)
      · exact Or.inr (Or.inr (Or.inl ⟨_, err, (hexp h).1, (hexp h).2, he⟩))
      · exact Or.inr (Or.inr (Or.inr ⟨_, r, (hexp h).1, (hexp h).2, hr⟩))
    · rintro (h | h | ⟨out, err, h1, h2, he⟩ | ⟨out, r, h1, h2, hr⟩)
      · exact Or.inl (Or.inl h)
      · exact Or.inl (Or.inr h)
      · obtain ⟨hk, ho⟩ := hok out h1 h2
        exact Or.inr (Or.inl ⟨hk, err, by rw [ho]; exact he⟩)
      · obtain ⟨hk, ho⟩ := hok out h1 h2
        exact Or.inr (Or.inr ⟨hk, r, by rw [ho]; exact hr⟩)
  · intro out r h1 h2 hr
    obtain ⟨hk, ho⟩ := hok out h1 h2
    exact hmsg hk r (by rw [ho]; exact hr)

theorem filter_error_iff_witness :
    (filterHandler.Handle testEval ⟨"test-filter".toList, ⟨false, ['"', 's', '"']⟩⟩ []).2
      = some "expression did not return a boolean".toList :=
  (filter_error_iff testEval ⟨"test-filter".toList, ⟨false, ['"', 's', '"']⟩⟩ []).2.2
    ['"', 's', '"'] ['s']
    ((substitution_ok_iff ['"', 's', '"'] [] ['"', 's', '"']).mp (by decide)).1
    ((substitution_ok_iff ['"', 's', '"'] [] ['"', 's', '"']).mp (by decide)).2
    (by rfl)

/-- A placeholder whose key is not in the context makes the filter fail. -/
theorem filter_missing_key (eval : Str → Except Str Value) (f : filterHandler) (data : Data)
    (h : ∃ m ∈ findAllString f.cfg.expression, data.lookup (keyOf m) = none) :
    f.Handle eval data =
      ([], some "failed to replace placeholders in expression: some data not found".toList) := by
  have hf : (replacePlaceholders f.cfg.expression data).2 = false := by
    rw [replacePlaceholders_snd, matchString_of_missing data _ h]
    rfl
  unfold filterHandler.Handle
  rw [(replacePlaceholders_of_fail hf).1]

/-! ## The tests of `TestFilter_Handle` -/

theorem test_filter_true :
    filterHandler.Handle testEval ⟨"test-filter".toList, ⟨false, "2 > 1".toList⟩⟩ []
      = ([[]], none) := by rfl

theorem test_filter_false_expected :
    filterHandler.Handle testEval ⟨"test-filter".toList, ⟨true, "2 < 1".toList⟩⟩ []
      = ([[]], none) := by rfl

theorem test_filter_false :
    filterHandler.Handle testEval ⟨"test-filter".toList, ⟨false, "2 < 1".toList⟩⟩ []
      = ([], none) := by rfl

theorem test_filter_true_unexpected :
    filterHandler.Handle testEval ⟨"test-filter".toList, ⟨true, "2 > 1".toList⟩⟩ []
      = ([], none) := by rfl

theorem test_filter_missing_key :
    (filterHandler.Handle testEval ⟨"test-filter".toList, ⟨false, "{{missing_key}}".toList⟩⟩
      []).2 ≠ none := by decide

/-! ## The retry loop of the HTTP handler -/

theorem handleLoop_succ (exec : Nat → Attempt) (env : Env) (retries : Int)
    (fuel attempt : Nat) (lastErr : Option Str) (sent waits : Nat) :
    handleLoop exec env retries (fuel + 1) attempt lastErr sent waits =
      if (attempt : Int) ≤ retries then
        match (exec attempt).err with
        | none =>
          some ⟨attempt + 1, if (exec attempt).sent then sent + 1 else sent, waits,
            (exec attempt).results, none⟩
        | some err =>
          if (attempt : Int) < retries then
            if env.cancelled attempt then
              some ⟨attempt + 1, if (exec attempt).sent then sent + 1 else sent, waits + 1, [],
                some env.ctxErr⟩
            else
              handleLoop exec env retries fuel (attempt + 1) (some err)
                (if (exec attempt).sent then sent + 1 else sent) (waits + 1)
          else
            handleLoop exec env retries fuel (attempt + 1) (some err)
              (if (exec attempt).sent then sent + 1 else sent) waits
      else
        some ⟨attempt, sent, waits, [],
          some ("failed to execute HTTP request after ".toList ++ itoa retries ++
            " attempts: ".toList ++ fmtErr lastErr)⟩ := rfl

theorem sentCount_snoc (exec : Nat → Attempt) :
    ∀ (k a : Nat), sentCount exec a (k + 1)
      = sentCount exec a k + (if (exec (a + k)).sent then 1 else 0) := by
  intro k
  induction k with
  | zero => intro a; simp [sentCount]
  | succ k ih =>
    intro a
    rw [sentCount, ih (a + 1), sentCount]
    have : a + 1 + k = a + (k + 1) := by omega
    rw [this]
    omega

/-- The loop passes over `k` failed attempts that are not the last one. -/
theorem handleLoop_skip (exec : Nat → Attempt) (env : Env) (R : Nat)
    (hnc : ∀ i, env.cancelled i = false) :
    ∀ (k attempt fuel : Nat) (lastErr : Option Str) (sent waits : Nat),
      attempt + k ≤ R →
      (∀ i, attempt ≤ i → i < attempt + k → (exec i).err ≠ none) →
      handleLoop exec env R (fuel + k) attempt lastErr sent waits
        = handleLoop exec env R fuel (attempt + k)
            (if k = 0 then lastErr else (exec (attempt + k - 1)).err)
            (sent + sentCount exec attempt k) (waits + k) := by
  intro k
  induction k with
  | zero => intro attempt fuel lastErr sent waits _ _; simp [sentCount]
  | succ k ih =>
    intro attempt fuel lastErr sent waits hR hfail
    have hle : (attempt : Int) ≤ (R : Int) := by omega
    have hlt : (attempt : Int) < (R : Int) := by omega
    obtain ⟨e, he⟩ := Option.ne_none_iff_exists'.mp (hfail attempt (le_refl _) (by omega))
    rw [show fuel + (k + 1) = (fuel + k) + 1 by omega, handleLoop_succ]
    simp only [hle, hlt, he, hnc, if_true, Bool.false_eq_true, if_false]
    rw [ih (attempt + 1) fuel (some e) _ (waits + 1) (by omega)
      (fun i h1 h2 => hfail i (by omega) (by omega))]
    have e1 : attempt + 1 + k = attempt + (k + 1) := by omega
    have e2 : (if k = 0 then some e else (exec (attempt + 1 + k - 1)).err)
        = (if k + 1 = 0 then lastErr else (exec (attempt + (k + 1) - 1)).err) := by
      by_cases hk : k = 0
      · subst hk; simp [he]
      · simp only [hk, if_false, Nat.succ_ne_zero]
        congr 2
        omega
    have e3 : (if (exec attempt).sent then sent + 1 else sent) + sentCount exec (attempt + 1) k
        = sent + sentCount exec attempt (k + 1) := by
      simp only [sentCount]
      split <;> omega
    have e4 : waits + 1 + k = waits + (k + 1) := by omega
    rw [e2, e3, e4, e1]

/-- The loop returns whenever its fuel exceeds the passes that are left. -/
theorem handleLoop_total (exec : Nat → Attempt) (env : Env) (retries : Int) :
    ∀ (fuel attempt : Nat) (lastErr : Option Str) (sent waits : Nat),
      (retries + 1 - attempt).toNat < fuel →
      ∃ run, handleLoop exec env retries fuel attempt lastErr sent waits = some run := by
  intro fuel
  induction fuel with
  | zero => intro attempt lastErr sent waits h; omega
  | succ fuel ih =>
    intro attempt lastErr sent waits h
    rw [handleLoop_succ]
    by_cases hle : (attempt : Int) ≤ retries
    · simp only [hle, if_true]
      have hnext : (retries + 1 - ((attempt + 1 : Nat) : Int)).toNat < fuel := by omega
      cases (exec attempt).err with
      | none => exact ⟨_, rfl⟩
      | some e =>
        simp only
        split
        · split
          · exact ⟨_, rfl⟩
          · exact ih _ _ _ _ hnext
        · exact ih _ _ _ _ hnext
    · simp only [hle, if_false]
      exact ⟨_, rfl⟩

/-- The method `Handle` of the HTTP handler returns for every configuration,
context and environment. -/
theorem httpHandler.Handle_total (std : Stdlib) (env : Env) (h : httpHandler) (data : Data) :
    ∃ run, h.Handle std env data = some run := by
  unfold httpHandler.Handle
  apply handleLoop_total
  simp

/-- When the attempts `0, ..., R` all fail and the context is never cancelled,
the loop ends after `R + 1` attempts and `R` waits with the error of the source. -/
theorem handleLoop_all_fail (exec : Nat → Attempt) (env : Env) (R : Nat)
    (hnc : ∀ i, env.cancelled i = false) (hfail : ∀ i, i ≤ R → (exec i).err ≠ none) :
    handleLoop exec env R (((R : Int) + 1).toNat + 1) 0 none 0 0 =
      some ⟨R + 1, sentCount exec 0 (R + 1), R, [],
        some ("failed to execute HTTP request after ".toList ++ itoa R ++
          " attempts: ".toList ++ fmtErr (exec R).err)⟩ := by
  have hfuel : ((R : Int) + 1).toNat + 1 = 2 + R := by omega
  rw [hfuel, handleLoop_skip exec env R hnc R 0 2 none 0 0 (by omega)
    (fun i _ h2 => hfail i (by omega))]
  obtain ⟨e, he⟩ := Option.ne_none_iff_exists'.mp (hfail R (le_refl _))
  have hlast : (if R = 0 then none else (exec (0 + R - 1)).err) = (if R = 0 then none else
      (exec (R - 1)).err) := by simp
  rw [show (2 : Nat) = 1 + 1 by rfl, handleLoop_succ]
  simp only [Nat.zero_add, le_refl, lt_irrefl, he, if_true, if_false]
  rw [handleLoop_succ]
  have hgt : ¬ (((R + 1 : Nat) : Int) ≤ (R : Int)) := by omega
  simp only [hgt, if_false, fmtErr]
  have hs : (if (exec R).sent then sentCount exec 0 R + 1 else sentCount exec 0 R)
      = sentCount exec 0 (R + 1) := by
    rw [sentCount_snoc, Nat.zero_add]
    split <;> rfl
  rw [hs]

/-- When the attempts before attempt `j` fail and attempt `j ≤ R` succeeds, the
loop returns its results after `j + 1` attempts and `j` waits. -/
theorem handleLoop_first_success (exec : Nat → Attempt) (env : Env) (R j : Nat)
    (hnc : ∀ i, env.cancelled i = false) (hj : j ≤ R)
    (hfail : ∀ i, i < j → (exec i).err ≠ none) (hok : (exec j).err = none) :
    handleLoop exec env R (((R : Int) + 1).toNat + 1) 0 none 0 0 =
      some ⟨j + 1, sentCount exec 0 (j + 1), j, (exec j).results, none⟩ := by
  have hfuel : ((R : Int) + 1).toNat + 1 = (R - j + 1 + 1) + j := by omega
  rw [hfuel, handleLoop_skip exec env R hnc j 0 (R - j + 1 + 1) none 0 0 (by omega)
    (fun i _ h2 => hfail i (by omega))]
  have hle : ((0 + j : Nat) : Int) ≤ (R : Int) := by omega
  rw [handleLoop_succ]
  simp only [hle, if_true]
  simp only [Nat.zero_add, hok]
  have hs : (if (exec j).sent then sentCount exec 0 j + 1 else sentCount exec 0 j)
      = sentCount exec 0 (j + 1) := by
    rw [sentCount_snoc, Nat.zero_add]
    split <;> rfl
  rw [hs]

theorem executeRequest_sent_of_created (std : Stdlib) (send : Request → Except Str Response)
    (h : httpHandler) (data : Data) (req : Request)
    (hc : h.createRequest std data = .ok req) :
    (h.executeRequest std send data).sent = true := by
  unfold httpHandler.executeRequest
  rw [hc]
  simp only
  cases send req with
  | error e => rfl
  | ok resp =>
    simp only
    split
    · rfl
    · cases std.decode resp.body <;> rfl

theorem sentCount_of_all_sent (exec : Nat → Attempt) (hs : ∀ i, (exec i).sent = true) :
    ∀ k a, sentCount exec a k = k := by
  intro k
  induction k with
  | zero => intro a; rfl
  | succ k ih => intro a; rw [sentCount, hs a, ih]; simp; omega

/-- C7: with `retries = R ≥ 0` and a context that is never cancelled, when every
attempt fails `Handle` makes exactly `R + 1` attempts and returns an error, and
when attempt number `i ≤ R + 1` is the first to succeed `Handle` makes exactly
`i` attempts and returns its results.  When `createRequest` succeeds, every
attempt is one request handed to the HTTP client. -/
theorem http_attempts_bound (std : Stdlib) (env : Env) (h : httpHandler) (data : Data)
    (R : Nat) (hR : h.cfg.retries = (R : Int)) (hnc : ∀ i, env.cancelled i = false) :
    ((∀ i, i ≤ R → (h.executeRequest std (env.send i) data).err ≠ none) →
        ∃ run, h.Handle std env data = some run ∧ run.attempts = R + 1 ∧
          run.err ≠ none ∧ run.results = [] ∧
          (∀ req, h.createRequest std data = .ok req → run.sent = R + 1)) ∧
      (∀ i, 1 ≤ i → i ≤ R + 1 →
        (∀ j, j + 1 < i → (h.executeRequest std (env.send j) data).err ≠ none) →
        (h.executeRequest std (env.send (i - 1)) data).err = none →
        ∃ run, h.Handle std env data = some run ∧ run.attempts = i ∧ run.err = none ∧
          run.results = (h.executeRequest std (env.send (i - 1)) data).results ∧
          (∀ req, h.createRequest std data = .ok req → run.sent = i)) := by
  have hH : h.Handle std env data = handleLoop
      (fun attempt => h.executeRequest std (env.send attempt) data) env R
      (((R : Int) + 1).toNat + 1) 0 none 0 0 := by
    unfold httpHandler.Handle
    rw [hR]
  have hsent : ∀ req, h.createRequest std data = .ok req → ∀ k,
      sentCount (fun attempt => h.executeRequest std (env.send attempt) data) 0 k = k :=
    fun req hc k => sentCount_of_all_sent _
      (fun i => executeRequest_sent_of_created std (env.send i) h data req hc) k 0
  constructor
  · intro hfail
    have hrun := handleLoop_all_fail
      (fun attempt => h.executeRequest std (env.send attempt) data) env R hnc hfail
    rw [hrun] at hH
    exact ⟨_, hH, rfl, by simp, rfl, fun req hc => hsent req hc (R + 1)⟩
  · intro i h1 h2 hfail hok
    have hrun := handleLoop_first_success
      (fun attempt => h.executeRequest std (env.send attempt) data) env R (i - 1) hnc
      (by omega) (fun j hj => hfail j (by omega)) hok
    rw [hrun] at hH
    have hi : i - 1 + 1 = i := by omega
    exact ⟨_, hH, hi, rfl, rfl, fun req hc => (hsent req hc (i - 1 + 1)).trans hi⟩

theorem http_attempts_bound_witness :
    (∃ run, httpHandler.Handle simpleStd failingEnv (newHTTPHandler "test-handler".toList
        retryTestCfg) [] = some run ∧ run.attempts = 2 + 1 ∧ run.err ≠ none ∧
        run.results = [] ∧
        (∀ req, httpHandler.createRequest simpleStd (newHTTPHandler "test-handler".toList
          retryTestCfg) [] = .ok req → run.sent = 2 + 1)) ∧
      (∃ run, httpHandler.Handle simpleStd recoveringEnv (newHTTPHandler "test-handler".toList
        retryTestCfg) [] = some run ∧ run.attempts = 2 ∧ run.err = none ∧
        run.results = ((newHTTPHandler "test-handler".toList retryTestCfg).executeRequest
          simpleStd (recoveringEnv.send (2 - 1)) []).results ∧
        (∀ req, httpHandler.createRequest simpleStd (newHTTPHandler "test-handler".toList
          retryTestCfg) [] = .ok req → run.sent = 2)) :=
  ⟨(http_attempts_bound simpleStd failingEnv (newHTTPHandler "test-handler".toList
      retryTestCfg) [] 2 (by rfl) (fun _ => rfl)).1
      (fun _ _ => (by decide : (httpHandler.executeRequest simpleStd (failingEnv.send 0)
        (newHTTPHandler "test-handler".toList retryTestCfg) []).err ≠ none)),
    (http_attempts_bound simpleStd recoveringEnv (newHTTPHandler "test-handler".toList
      retryTestCfg) [] 2 (by rfl) (fun _ => rfl)).2 2 (by decide) (by decide)
      (fun j hj => by
        have : j = 0 := by omega
        subst this
        decide)
      (by decide)⟩

/-- The test "Retry on unexpected response code": one failure, then success on
the second attempt. -/
theorem test_retry_then_success :
    httpHandler.Handle simpleStd recoveringEnv (newHTTPHandler "test-handler".toList
        retryTestCfg) []
      = some ⟨2, 2, 1, [], none⟩ := by decide

/-! ## Placeholder errors in the HTTP handler -/

/-- When the URL or the body has an unresolved placeholder, `createRequest` fails
and `executeRequest` fails before it hands a request to the HTTP client. -/
theorem executeRequest_of_unresolved (std : Stdlib) (send : Request → Except Str Response)
    (h : httpHandler) (data : Data)
    (hsub : (replacePlaceholders h.cfg.url data).2 = false ∨
      (replacePlaceholders h.cfg.body data).2 = false) :
    ∃ e, (e = "failed to replace placeholders in URL: some data not found".toList ∨
          e = "failed to replace placeholders in body: some data not found".toList) ∧
      h.createRequest std data = .error e ∧
      h.executeRequest std send data
        = ⟨[], some ("failed to create HTTP request: ".toList ++ e), false⟩ := by
  unfold httpHandler.executeRequest httpHandler.createRequest
  rcases hu : replacePlaceholders h.cfg.url data with ⟨u, oku⟩
  rcases hb : replacePlaceholders h.cfg.body data with ⟨b, okb⟩
  rw [hu, hb] at hsub
  cases oku with
  | false => exact ⟨_, Or.inl rfl, rfl, rfl⟩
  | true =>
    cases okb with
    | false => exact ⟨_, Or.inr rfl, rfl, rfl⟩
    | true => simp at hsub

/-- C8, as stated, fails: the handler `placeholderCfg` has `retries = 1` and the
placeholder `{{ x }}` in its URL; in the empty context `Handle` makes two
attempts and starts one wait of `retry_interval` before it fails. -/
theorem http_placeholder_not_retried_refuted :
    (replacePlaceholders placeholderCfg.url []).2 = false ∧
      httpHandler.Handle simpleStd failingEnv (newHTTPHandler "h".toList placeholderCfg) []
        = some ⟨2, 0, 1, [],
            some ("failed to execute HTTP request after 1 attempts: ".toList ++
              "failed to create HTTP request: ".toList ++
              "failed to replace placeholders in URL: some data not found".toList)⟩ := by
  decide

/-- C8, amended: placeholder errors are retried like every other failure of an
attempt.  With `retries = R ≥ 0`, an unresolved placeholder in the URL or the
body, and a context that is never cancelled, `Handle` makes `R + 1` attempts,
none of which sends a request, starts `R` waits of `retry_interval`, and fails
with the error of `createRequest`. -/
theorem http_placeholder_error_retried (std : Stdlib) (env : Env) (h : httpHandler)
    (data : Data) (R : Nat) (hR : h.cfg.retries = (R : Int))
    (hnc : ∀ i, env.cancelled i = false)
    (hsub : (replacePlaceholders h.cfg.url data).2 = false ∨
      (replacePlaceholders h.cfg.body data).2 = false) :
    ∃ e, (e = "failed to replace placeholders in URL: some data not found".toList ∨
          e = "failed to replace placeholders in body: some data not found".toList) ∧
      h.createRequest std data = .error e ∧
      h.Handle std env data = some ⟨R + 1, 0, R, [],
        some ("failed to execute HTTP request after ".toList ++ itoa R ++
          " attempts: ".toList ++ ("failed to create HTTP request: ".toList ++ e))⟩ := by
  obtain ⟨e, he, hc, -⟩ := executeRequest_of_unresolved std (env.send 0) h data hsub
  have hex : ∀ i, h.executeRequest std (env.send i) data
      = ⟨[], some ("failed to create HTTP request: ".toList ++ e), false⟩ := by
    intro i
    obtain ⟨e2, -, hc2, hx⟩ := executeRequest_of_unresolved std (env.send i) h data hsub
    rw [hc] at hc2
    cases hc2
    exact hx
  have hrun := handleLoop_all_fail
    (fun attempt => h.executeRequest std (env.send attempt) data) env R hnc
    (fun i _ => by simp [hex i])
  have hcount : ∀ k a, sentCount
      (fun attempt => h.executeRequest std (env.send attempt) data) a k = 0 := by
    intro k
    induction k with
    | zero => intro a; rfl
    | succ k ih => intro a; simp [sentCount, hex a, ih]
  have hH : h.Handle std env data = handleLoop
      (fun attempt => h.executeRequest std (env.send attempt) data) env R
      (((R : Int) + 1).toNat + 1) 0 none 0 0 := by
    unfold httpHandler.Handle
    rw [hR]
  rw [hrun, hcount] at hH
  simp only [hex R, fmtErr] at hH
  exact ⟨e, he, hc, hH⟩

theorem http_placeholder_error_retried_witness :
    ∃ e, (e = "failed to replace placeholders in URL: some data not found".toList ∨
          e = "failed to replace placeholders in body: some data not found".toList) ∧
      httpHandler.createRequest simpleStd (newHTTPHandler "h".toList placeholderCfg) []
        = .error e ∧
      httpHandler.Handle simpleStd failingEnv (newHTTPHandler "h".toList placeholderCfg) []
        = some ⟨1 + 1, 0, 1, [],
          some ("failed to execute HTTP request after ".toList ++ itoa (1 : Nat) ++
            " attempts: ".toList ++ ("failed to create HTTP request: ".toList ++ e))⟩ :=
  http_placeholder_error_retried simpleStd failingEnv (newHTTPHandler "h".toList placeholderCfg)
    [] 1 (by rfl) (fun _ => rfl) (Or.inl (by decide))

/-! ## The error after the last attempt -/

/-- C9, amended: when every attempt of a handler with `retries = R ≥ 0` fails and
the context is never cancelled, `Handle` makes `R + 1` attempts and returns nil
results and the error "failed to execute HTTP request after N attempts:
<last error>", where `N` is the configured `retries` value `R` and
`<last error>` is the error of the final attempt. -/
theorem http_exhausted_error (std : Stdlib) (env : Env) (h : httpHandler) (data : Data)
    (R : Nat) (hR : h.cfg.retries = (R : Int)) (hnc : ∀ i, env.cancelled i = false)
    (hfail : ∀ i, i ≤ R → (h.executeRequest std (env.send i) data).err ≠ none) :
    ∃ run last, (h.executeRequest std (env.send R) data).err = some last ∧
      h.Handle std env data = some run ∧ run.attempts = R + 1 ∧ run.results = [] ∧
      run.err = some ("failed to execute HTTP request after ".toList ++ itoa R ++
        " attempts: ".toList ++ last) := by
  have hrun := handleLoop_all_fail
    (fun attempt => h.executeRequest std (env.send attempt) data) env R hnc hfail
  have hH : h.Handle std env data = handleLoop
      (fun attempt => h.executeRequest std (env.send attempt) data) env R
      (((R : Int) + 1).toNat + 1) 0 none 0 0 := by
    unfold httpHandler.Handle
    rw [hR]
  rw [hrun] at hH
  obtain ⟨last, hlast⟩ := Option.ne_none_iff_exists'.mp (hfail R (le_refl _))
  refine ⟨_, last, hlast, hH, rfl, rfl, ?_⟩
  simp only [hlast, fmtErr]

theorem http_exhausted_error_witness :
    ∃ run last,
      (httpHandler.executeRequest simpleStd (failingEnv.send 2)
        (newHTTPHandler "test-handler".toList retryTestCfg) []).err = some last ∧
      httpHandler.Handle simpleStd failingEnv
        (newHTTPHandler "test-handler".toList retryTestCfg) [] = some run ∧
      run.attempts = 2 + 1 ∧ run.results = [] ∧
      run.err = some ("failed to execute HTTP request after ".toList ++ itoa (2 : Nat) ++
        " attempts: ".toList ++ last) :=
  http_exhausted_error simpleStd failingEnv (newHTTPHandler "test-handler".toList retryTestCfg)
    [] 2 (by rfl) (fun _ => rfl)
    (fun _ _ => (by decide : (httpHandler.executeRequest simpleStd (failingEnv.send 0)
      (newHTTPHandler "test-handler".toList retryTestCfg) []).err ≠ none))

/-- C9, as stated, fails, at the input of the test "Fail after all retries": with
`retries = 2` and a server that always answers 500, `Handle` makes three
attempts and its error says "after 2 attempts", not "after 3 attempts". -/
theorem http_error_names_retries_not_attempts :
    httpHandler.Handle simpleStd failingEnv (newHTTPHandler "test-handler".toList retryTestCfg)
        []
      = some ⟨3, 3, 2, [],
          some ("failed to execute HTTP request after 2 attempts: ".toList ++
            "unexpected response code: got 500, expected 200".toList)⟩ ∧
      ("failed to execute HTTP request after 2 attempts: ".toList ++
          "unexpected response code: got 500, expected 200".toList)
        ≠ ("failed to execute HTTP request after ".toList ++ itoa 3 ++ " attempts: ".toList ++
          "unexpected response code: got 500, expected 200".toList) := by
  decide

/-! ## The query parameters of the request -/

/-- The request that `createRequest` builds does not depend on `query_params`. -/
theorem createRequest_ignores_queryParams (std : Stdlib) (h : httpHandler) (data : Data)
    (qp : Data) :
    httpHandler.createRequest std { h with cfg := { h.cfg with queryParams := qp } } data
      = h.createRequest std data := by
  have hfold : ∀ (l : Data) (req : Request),
      l.foldl (fun (req : Request) kv =>
        let _values := Values.add (std.query req.url) kv.1 kv.2
        req) req = req := by
    intro l
    induction l with
    | nil => intro req; rfl
    | cons a l ih => intro req; exact ih req
  unfold httpHandler.createRequest
  simp only [hfold]

/-- C10, at a failing input: for the handler `queryCfg`, whose `query_params` are
`a=1`, `createRequest` succeeds, the request has the static header with its
value as configured, and the URL of the request has no query parameter. -/
theorem createRequest_drops_queryParams :
    queryCfg.queryParams = [("a".toList, "1".toList)] ∧
      httpHandler.createRequest simpleStd (newHTTPHandler "h".toList queryCfg) []
        = .ok ⟨"GET".toList, "http://127.0.0.1/x".toList,
            [("X-Token".toList, ["{{ t }}".toList])], []⟩ ∧
      simpleStd.query "http://127.0.0.1/x".toList = [] := by
  refine ⟨by rfl, by rfl, by decide⟩

/-! ## Go maps as lists of entries -/

theorem lookup_cons_eq (a b k : Str) (l : Data) :
    List.lookup k ((a, b) :: l) = if k = a then some b else l.lookup k := by
  by_cases h : k = a
  · subst h
    simp [List.lookup]
  · have hb : (k == a) = false := by simpa using h
    simp [List.lookup, hb, h]

theorem mem_of_lookup {l : Data} {k v : Str} (h : l.lookup k = some v) : (k, v) ∈ l := by
  induction l with
  | nil => simp [List.lookup] at h
  | cons a l ih =>
    obtain ⟨k0, v0⟩ := a
    rw [lookup_cons_eq] at h
    by_cases hk : k = k0
    · subst hk
      simp only [if_true] at h
      cases h
      exact List.mem_cons_self _ _
    · simp only [hk, if_false] at h
      exact List.mem_cons_of_mem _ (ih h)

theorem lookup_mapSet (d : Data) (key value k : Str) :
    (mapSet d key value).lookup k = if k = key then some value else d.lookup k := by
  induction d with
  | nil => simp [mapSet, lookup_cons_eq]
  | cons a d ih =>
    obtain ⟨k0, v0⟩ := a
    by_cases h0 : k0 = key
    · subst h0
      simp only [mapSet, if_true, lookup_cons_eq]
      by_cases h : k = k0 <;> simp [h]
    · simp only [mapSet, h0, if_false, lookup_cons_eq, ih]
      by_cases h : k = k0
      · subst h
        simp [h0]
      · simp [h]

/-- Entries assigned one after the other to a map: the entries win over the map,
and among the entries of a Go map there is one value for a key. -/
theorem lookup_foldl_mapSet (l : Data) (hl : IsMap l) (acc : Data) (k : Str) :
    (l.foldl (fun nd kv => mapSet nd kv.1 kv.2) acc).lookup k
      = match l.lookup k with
        | some v => some v
        | none => acc.lookup k := by
  induction l generalizing acc with
  | nil => rfl
  | cons a l ih =>
    obtain ⟨k0, v0⟩ := a
    have hnd : k0 ∉ l.map Prod.fst ∧ IsMap l := by
      simpa [IsMap] using hl
    rw [List.foldl_cons, ih hnd.2, lookup_cons_eq, lookup_mapSet]
    by_cases h : k = k0
    · subst h
      have hnone : l.lookup k = none := by
        cases hx : l.lookup k with
        | none => rfl
        | some v =>
          exact absurd (List.mem_map.mpr ⟨(k, v), mem_of_lookup hx, rfl⟩)
            hnd.1
      simp [hnone]
    · simp only [h, if_false]

theorem lookup_copyMap (d : Data) (hd : IsMap d) (k : Str) :
    (copyMap d).lookup k = d.lookup k := by
  unfold copyMap
  rw [lookup_foldl_mapSet d hd]
  cases d.lookup k <;> rfl

theorem isMap_prefixed (name : Str) (r : HandlerResult) (hr : IsMap r) :
    IsMap (prefixed name r) := by
  unfold IsMap prefixed at *
  rw [List.map_map]
  have : (Prod.fst ∘ fun kv : Str × Str => (name ++ '.' :: kv.1, kv.2))
      = (fun k => name ++ '.' :: k) ∘ Prod.fst := rfl
  rw [this, ← List.map_map]
  apply List.Nodup.map _ hr
  intro a b hab
  simpa using hab

theorem newData_eq (name : Str) (data : Data) (r : HandlerResult) :
    newData name data r
      = (prefixed name r).foldl (fun nd kv => mapSet nd kv.1 kv.2) (copyMap data) := by
  unfold newData prefixed
  rw [List.foldl_map]

/-- The map of a branch has the entries of its record under the name of the
handler, the entries of the map of the parent, and nothing else. -/
theorem lookup_newData (name : Str) (data : Data) (r : HandlerResult) (hd : IsMap data)
    (hr : IsMap r) (k : Str) :
    (newData name data r).lookup k
      = match (prefixed name r).lookup k with
        | some v => some v
        | none => data.lookup k := by
  rw [newData_eq, lookup_foldl_mapSet _ (isMap_prefixed name r hr), lookup_copyMap data hd]

/-! ## Unfolding `runHandlerPipe` -/

theorem runHandlerPipe_nil (order : List Nat → List Str → List Str) (path : List Nat)
    (data : Data) : runHandlerPipe order path data [] = ⟨none, [], []⟩ := rfl

theorem runHandlerPipe_err (order : List Nat → List Str → List Str) (path : List Nat)
    (data : Data) (h : Handler) (tail : List Handler) (results : List HandlerResult)
    (err : Str) (hh : h.Handle path data = (results, some err)) :
    runHandlerPipe order path data (h :: tail)
      = ⟨some ("failed to run handler ".toList ++ h.Name ++ ": ".toList ++ err),
          [⟨h.Name, path, data⟩], []⟩ := by
  simp only [runHandlerPipe, hh]

theorem runHandlerPipe_ok (order : List Nat → List Str → List Str) (path : List Nat)
    (data : Data) (h : Handler) (tail : List Handler) (results : List HandlerResult)
    (hh : h.Handle path data = (results, none)) :
    runHandlerPipe order path data (h :: tail)
      = ⟨if joinErrors (order path (((List.enum results).map fun ir =>
              runHandlerPipe order (path ++ [ir.1]) (newData h.Name data ir.2) tail).filterMap
              fun c => c.err)) ≠ []
          then some ("failed to run handler pipe: ".toList ++
            joinErrors (order path (((List.enum results).map fun ir =>
              runHandlerPipe order (path ++ [ir.1]) (newData h.Name data ir.2) tail).filterMap
              fun c => c.err)))
          else none,
          ⟨h.Name, path, data⟩ :: ((List.enum results).map fun ir =>
            runHandlerPipe order (path ++ [ir.1]) (newData h.Name data ir.2) tail).flatMap
            fun c => c.calls,
          (results.flatMap fun r => recordWrites h.Name (copyMap data) r) ++
            ((List.enum results).map fun ir =>
              runHandlerPipe order (path ++ [ir.1]) (newData h.Name data ir.2) tail).flatMap
              fun c => c.writes⟩ := by
  simp only [runHandlerPipe, hh]

/-- Every call of a run is at the place of the run or below it. -/
theorem calls_path_ge (order : List Nat → List Str → List Str) :
    ∀ (hs : List Handler) (path : List Nat) (data : Data),
      ∀ c ∈ (runHandlerPipe order path data hs).calls, path.length ≤ c.path.length := by
  intro hs
  induction hs with
  | nil => intro path data c hc; simp [runHandlerPipe_nil] at hc
  | cons h tail ih =>
    intro path data c hc
    rcases hh : h.Handle path data with ⟨results, err⟩
    cases err with
    | some e =>
      rw [runHandlerPipe_err order path data h tail results e hh] at hc
      simp only [List.mem_singleton] at hc
      subst hc
      exact le_refl _
    | none =>
      rw [runHandlerPipe_ok order path data h tail results hh] at hc
      simp only [List.mem_cons, List.mem_flatMap, List.mem_map] at hc
      rcases hc with rfl | ⟨r, ⟨ir, -, rfl⟩, hcr⟩
      · exact le_refl _
      · have := ih (path ++ [ir.1]) _ c hcr
        simp only [List.length_append, List.length_singleton] at this
        omega

/-- A run over a list that is not empty calls the first handler once, at its own
place, and every other call is below. -/
theorem calls_head (order : List Nat → List Str → List Str) (g : Handler)
    (rest : List Handler) (path : List Nat) (data : Data) :
    ∃ cs, (runHandlerPipe order path data (g :: rest)).calls = ⟨g.Name, path, data⟩ :: cs ∧
      ∀ c ∈ cs, path.length < c.path.length := by
  rcases hh : g.Handle path data with ⟨results, err⟩
  cases err with
  | some e =>
    rw [runHandlerPipe_err order path data g rest results e hh]
    exact ⟨[], rfl, by simp⟩
  | none =>
    rw [runHandlerPipe_ok order path data g rest results hh]
    refine ⟨_, rfl, ?_⟩
    intro c hc
    simp only [List.mem_flatMap, List.mem_map] at hc
    obtain ⟨r, ⟨ir, -, rfl⟩, hcr⟩ := hc
    have := calls_path_ge order rest (path ++ [ir.1]) _ c hcr
    simp only [List.length_append, List.length_singleton] at this
    omega

/-- Among the calls of the branches, those one step below the parent are the calls
of the first handler of the tail, one for each branch. -/
theorem filter_calls_children (order : List Nat → List Str → List Str) (g : Handler)
    (rest : List Handler) (path : List Nat) (nd : HandlerResult → Data) :
    ∀ l : List (Nat × HandlerResult),
      ((l.map fun ir => runHandlerPipe order (path ++ [ir.1]) (nd ir.2) (g :: rest)).flatMap
          fun c => c.calls).filter (fun c => decide (c.path.length = path.length + 1))
        = l.map fun ir => (⟨g.Name, path ++ [ir.1], nd ir.2⟩ : Call) := by
  intro l
  induction l with
  | nil => rfl
  | cons ir l ih =>
    rw [List.map_cons, List.flatMap_cons, List.filter_append, ih, List.map_cons]
    obtain ⟨cs, hcs, hlt⟩ := calls_head order g rest (path ++ [ir.1]) (nd ir.2)
    rw [hcs]
    have hnone : cs.filter (fun c => decide (c.path.length = path.length + 1)) = [] := by
      rw [List.filter_eq_nil_iff]
      intro c hc
      have := hlt c hc
      simp only [List.length_append, List.length_singleton] at this
      simp only [decide_eq_true_eq]
      omega
    rw [List.filter_cons, hnone]
    simp

/-! ## The pipeline evaluator: the claims -/

/-- C11: when `h.Handle(ctx)` succeeds with the records `R1..Rn`, `runHandlerPipe`
calls `h` and then runs the tail once for each record: its calls are the call of
`h` followed by the calls of the `n` runs of the tail; the first handler of the
tail is called exactly `n` times one step below, the `i`-th time with the map
`newData` of `Ri`; that map has `h.Name()+"."+k -> string(v)` for the entries of
`Ri`, the entries of `ctx`, and no other key; with no record only `h` is called. -/
theorem fanout_shape (order : List Nat → List Str → List Str) (path : List Nat) (ctx : Data)
    (h : Handler) (tail : List Handler) (records : List HandlerResult)
    (hok : h.Handle path ctx = (records, none)) :
    (runHandlerPipe order path ctx (h :: tail)).calls
        = ⟨h.Name, path, ctx⟩ :: ((List.enum records).map fun ir =>
            runHandlerPipe order (path ++ [ir.1]) (newData h.Name ctx ir.2) tail).flatMap
            (fun c => c.calls) ∧
      (∀ g rest, tail = g :: rest →
        (runHandlerPipe order path ctx (h :: tail)).calls.filter
            (fun c => decide (c.path.length = path.length + 1))
          = (List.enum records).map (fun ir =>
              (⟨g.Name, path ++ [ir.1], newData h.Name ctx ir.2⟩ : Call))) ∧
      (IsMap ctx → ∀ r ∈ records, IsMap r → ∀ key,
        (newData h.Name ctx r).lookup key
          = match (prefixed h.Name r).lookup key with
            | some v => some v
            | none => ctx.lookup key) ∧
      (records = [] → (runHandlerPipe order path ctx (h :: tail)).calls
        = [⟨h.Name, path, ctx⟩]) := by
  have hrun := runHandlerPipe_ok order path ctx h tail records hok
  refine ⟨by rw [hrun], ?_, ?_, ?_⟩
  · intro g rest htail
    subst htail
    rw [hrun]
    simp only
    rw [List.filter_cons]
    have hroot : decide (path.length = path.length + 1) = false := by simp
    simp only [hroot, Bool.false_eq_true, if_false]
    exact filter_calls_children order g rest path (fun r => newData h.Name ctx r)
      (List.enum records)
  · intro hctx r _ hr key
    exact lookup_newData h.Name ctx r hctx hr key
  · intro hnil
    subst hnil
    rw [hrun]
    rfl

theorem fanout_shape_witness :
    (runHandlerPipe inOrder [0] []
        [mockHandler "h1".toList [[("key".toList, "a".toList)], [("key".toList, "b".toList)]],
          mockHandler "h2".toList []]).calls.filter
        (fun c => decide (c.path.length = [0].length + 1))
      = [⟨"h2".toList, [0, 0], [("h1.key".toList, "a".toList)]⟩,
          ⟨"h2".toList, [0, 1], [("h1.key".toList, "b".toList)]⟩] :=
  (fanout_shape inOrder [0] []
    (mockHandler "h1".toList [[("key".toList, "a".toList)], [("key".toList, "b".toList)]])
    [mockHandler "h2".toList []] [[("key".toList, "a".toList)], [("key".toList, "b".toList)]]
    rfl).2.1 (mockHandler "h2".toList []) [] rfl

/-- The test `TestRunHandlerPipe_Parallel`: the first handler is called once and
the second once for each of the two records. -/
theorem test_run_handler_pipe :
    runHandlerPipe inOrder [0] []
        [mockHandler "mock".toList [[("key".toList, "value".toList)],
          [("key".toList, "value".toList)]], mockHandler "mock".toList []]
      = ⟨none,
          [⟨"mock".toList, [0], []⟩,
            ⟨"mock".toList, [0, 0], [("mock.key".toList, "value".toList)]⟩,
            ⟨"mock".toList, [0, 1], [("mock.key".toList, "value".toList)]⟩],
          [⟨"mock.key".toList, false⟩, ⟨"mock.key".toList, false⟩]⟩ := by
  decide

theorem joinErrors_length (errs : List Str) :
    ∀ acc : Str, acc.length + errs.length
      ≤ (errs.foldl (fun errMsg err => errMsg ++ (err ++ ['\n'])) acc).length := by
  induction errs with
  | nil => intro acc; simp
  | cons e errs ih =>
    intro acc
    have := ih (acc ++ (e ++ ['\n']))
    simp only [List.foldl_cons, List.length_cons, List.length_append, List.length_nil] at this ⊢
    omega

theorem joinErrors_eq_nil_iff (errs : List Str) : joinErrors errs = [] ↔ errs = [] := by
  constructor
  · intro h
    have := joinErrors_length errs []
    unfold joinErrors at h
    rw [h] at this
    exact List.length_eq_zero.mp (by simpa using this)
  · rintro rfl
    rfl

theorem perm_eq_nil_iff {l1 l2 : List Str} (h : l1.Perm l2) : l1 = [] ↔ l2 = [] := by
  constructor
  · intro h0
    have := h.length_eq
    rw [h0] at this
    exact List.length_eq_zero.mp this.symm
  · intro h0
    have := h.length_eq
    rw [h0] at this
    exact List.length_eq_zero.mp this

/-- C13: `runHandlerPipe` returns success on the empty list; when
`handlers[0].Handle` fails with `e` it returns "failed to run handler <name>: e"
and calls no handler of the tail; otherwise it returns success if and only if
every run of the tail succeeds, an error that starts with
"failed to run handler pipe: " when a run of the tail fails, and every run of
the tail is made, whether another one fails or not. -/
theorem runHandlerPipe_result (order : List Nat → List Str → List Str)
    (hperm : ∀ p l, (order p l).Perm l) (path : List Nat) (ctx : Data) :
    (runHandlerPipe order path ctx []).err = none ∧
      (∀ h tail results e, h.Handle path ctx = (results, some e) →
        (runHandlerPipe order path ctx (h :: tail)).err
            = some ("failed to run handler ".toList ++ h.Name ++ ": ".toList ++ e) ∧
          (runHandlerPipe order path ctx (h :: tail)).calls = [⟨h.Name, path, ctx⟩]) ∧
      (∀ h tail records, h.Handle path ctx = (records, none) →
        ((runHandlerPipe order path ctx (h :: tail)).err = none ↔
            ∀ ir ∈ List.enum records,
              (runHandlerPipe order (path ++ [ir.1]) (newData h.Name ctx ir.2) tail).err
                = none) ∧
          ((∃ ir ∈ List.enum records,
              (runHandlerPipe order (path ++ [ir.1]) (newData h.Name ctx ir.2) tail).err
                ≠ none) →
            ∃ msg, (runHandlerPipe order path ctx (h :: tail)).err
              = some ("failed to run handler pipe: ".toList ++ msg)) ∧
          (∀ ir ∈ List.enum records,
            ∀ c ∈ (runHandlerPipe order (path ++ [ir.1]) (newData h.Name ctx ir.2) tail).calls,
              c ∈ (runHandlerPipe order path ctx (h :: tail)).calls)) := by
  refine ⟨rfl, ?_, ?_⟩
  · intro h tail results e hh
    rw [runHandlerPipe_err order path ctx h tail results e hh]
    exact ⟨rfl, rfl⟩
  · intro h tail records hh
    rw [runHandlerPipe_ok order path ctx h tail records hh]
    simp only
    have hnil : joinErrors (order path (((List.enum records).map fun ir =>
          runHandlerPipe order (path ++ [ir.1]) (newData h.Name ctx ir.2) tail).filterMap
          fun c => c.err)) = [] ↔
        ∀ ir ∈ List.enum records,
          (runHandlerPipe order (path ++ [ir.1]) (newData h.Name ctx ir.2) tail).err
            = none := by
      rw [joinErrors_eq_nil_iff, perm_eq_nil_iff (hperm path _), List.filterMap_eq_nil_iff]
      constructor
      · intro h2 ir hir
        exact h2 _ (List.mem_map.mpr ⟨ir, hir, rfl⟩)
      · intro hall c hc
        obtain ⟨ir, hir, rfl⟩ := List.mem_map.mp hc
        exact hall ir hir
    generalize joinErrors (order path (((List.enum records).map fun ir =>
          runHandlerPipe order (path ++ [ir.1]) (newData h.Name ctx ir.2) tail).filterMap
          fun c => c.err)) = errMsg at hnil ⊢
    refine ⟨?_, ?_, ?_⟩
    · rw [← hnil]
      by_cases h0 : errMsg = []
      · rw [if_neg (not_not.mpr h0)]
        exact ⟨fun _ => h0, fun _ => rfl⟩
      · rw [if_pos h0]
        exact ⟨fun hx => (by cases hx), fun hx => absurd hx h0⟩
    · rintro ⟨ir, hir, hne⟩
      have hne2 : errMsg ≠ [] := fun h0 => hne (hnil.mp h0 ir hir)
      exact ⟨errMsg, by rw [if_pos hne2]⟩
    · intro ir hir c hc
      apply List.mem_cons_of_mem
      exact List.mem_flatMap.mpr ⟨_, List.mem_map.mpr ⟨ir, hir, rfl⟩, hc⟩

theorem runHandlerPipe_result_witness :
    (runHandlerPipe inOrder [0] [] [failingHandler "mock".toList "handler error".toList]).err
        = some ("failed to run handler ".toList ++ "mock".toList ++ ": ".toList ++
            "handler error".toList) ∧
      (runHandlerPipe inOrder [0] [] [failingHandler "mock".toList "handler error".toList]).calls
        = [⟨"mock".toList, [0], []⟩] :=
  (runHandlerPipe_result inOrder (fun _ _ => List.Perm.refl _) [0] []).2.1
    (failingHandler "mock".toList "handler error".toList) [] [] "handler error".toList rfl

/-! ## Keys of the context are not overwritten -/

theorem isSome_lookup_foldl_mapSet (l : Data) :
    ∀ (acc : Data) (k : Str),
      ((l.foldl (fun nd kv => mapSet nd kv.1 kv.2) acc).lookup k).isSome = true →
        (l.lookup k).isSome = true ∨ (acc.lookup k).isSome = true := by
  induction l with
  | nil => intro acc k h; exact Or.inr h
  | cons a l ih =>
    intro acc k h
    obtain ⟨k0, v0⟩ := a
    rw [List.foldl_cons] at h
    rw [lookup_cons_eq]
    rcases ih _ k h with h1 | h1
    · by_cases hk : k = k0
      · simp [hk]
      · simp only [hk, if_false]
        exact Or.inl h1
    · rw [lookup_mapSet] at h1
      by_cases hk : k = k0
      · simp [hk]
      · simp only [hk, if_false] at h1 ⊢
        exact Or.inr h1

/-- A key of the map of a branch is a key of the record under the name of the
handler, or a key of the map of the parent. -/
theorem isSome_lookup_newData (name : Str) (data : Data) (r : HandlerResult) (key : Str)
    (h : ((newData name data r).lookup key).isSome = true) :
    (name ++ ['.']) <+: key ∨ (data.lookup key).isSome = true := by
  rw [newData_eq] at h
  rcases isSome_lookup_foldl_mapSet _ _ _ h with h1 | h1
  · left
    obtain ⟨v, hv⟩ := Option.isSome_iff_exists.mp h1
    have hmem := mem_of_lookup hv
    unfold prefixed at hmem
    obtain ⟨kv, -, hkv⟩ := List.mem_map.mp hmem
    have hk : key = name ++ '.' :: kv.1 := (congrArg Prod.fst hkv).symm
    rw [hk]
    exact ⟨kv.1, by simp⟩
  · right
    unfold copyMap at h1
    rcases isSome_lookup_foldl_mapSet _ _ _ h1 with h2 | h2
    · exact h2
    · simp [List.lookup] at h2

theorem recordWrites_fresh (name : Str) (r : HandlerResult) (hr : IsMap r) :
    ∀ nd : Data, (∀ k ∈ r.map Prod.fst, nd.lookup (name ++ '.' :: k) = none) →
      ∀ w ∈ recordWrites name nd r, w.present = false := by
  induction r with
  | nil => intro nd _ w hw; simp [recordWrites] at hw
  | cons a r ih =>
    obtain ⟨k, v⟩ := a
    have hnd : k ∉ r.map Prod.fst ∧ IsMap r := by
      simpa [IsMap] using hr
    intro nd hfree w hw
    simp only [recordWrites, List.mem_cons] at hw
    rcases hw with rfl | hw
    · simp [hfree k (by simp)]
    · refine ih hnd.2 _ ?_ w hw
      intro k2 hk2
      rw [lookup_mapSet]
      have hne : k2 ≠ k := fun h => hnd.1 (h ▸ hk2)
      have hne2 : name ++ '.' :: k2 ≠ name ++ '.' :: k := by
        intro h
        exact hne (by simpa using h)
      simp only [hne2, if_false]
      exact hfree k2 (List.mem_cons_of_mem _ hk2)

/-- Two different names of which neither continues the other after a `.` do not
give the same key. -/
theorem prefix_clash {a b k : Str} (h : (a ++ ['.']) <+: (b ++ '.' :: k)) (hne : a ≠ b)
    (hab : ¬ (a ++ ['.']) <+: b) (hba : ¬ (b ++ ['.']) <+: a) : False := by
  have hb1 : (b ++ ['.']) <+: (b ++ '.' :: k) := ⟨k, by simp⟩
  have hb0 : b <+: (b ++ '.' :: k) := List.prefix_append _ _
  have ha0 : a <+: (b ++ '.' :: k) := (List.prefix_append a ['.']).trans h
  rcases Nat.lt_trichotomy a.length b.length with hlt | heq | hgt
  · exact hab (List.prefix_of_prefix_length_le h hb0 (by simp; omega))
  · have hp : (a ++ ['.']) <+: (b ++ ['.']) :=
      List.prefix_of_prefix_length_le h hb1 (by simp; omega)
    have he := hp.eq_of_length (by simp; omega)
    exact hne (List.append_cancel_right he)
  · exact hba (List.prefix_of_prefix_length_le hb1 ha0 (by simp; omega))

/-- The invariant of a branch: every key of the map starts with the name of a
handler that came before, followed by `.`; no write of the handlers that remain
meets such a key. -/
theorem writes_fresh (order : List Nat → List Str → List Str) :
    ∀ (hs : List Handler) (used : List Str) (path : List Nat) (ctx : Data),
      (used ++ hs.map Handler.Name).Nodup →
      (∀ a ∈ used ++ hs.map Handler.Name, ∀ b ∈ used ++ hs.map Handler.Name,
        ¬ (a ++ ['.']) <+: b) →
      (∀ h ∈ hs, ∀ path data, ∀ r ∈ (h.Handle path data).1, IsMap r) →
      (∀ key, (ctx.lookup key).isSome = true → ∃ n ∈ used, (n ++ ['.']) <+: key) →
      ∀ w ∈ (runHandlerPipe order path ctx hs).writes, w.present = false := by
  intro hs
  induction hs with
  | nil => intro used path ctx _ _ _ _ w hw; simp [runHandlerPipe_nil] at hw
  | cons h tail ih =>
    intro used path ctx hnodup hdot hrec hinv w hw
    rcases hh : h.Handle path ctx with ⟨records, err⟩
    cases err with
    | some e =>
      rw [runHandlerPipe_err order path ctx h tail records e hh] at hw
      simp at hw
    | none =>
      rw [runHandlerPipe_ok order path ctx h tail records hh] at hw
      simp only [List.mem_append, List.mem_flatMap, List.mem_map] at hw
      have hrecs : ∀ r ∈ records, IsMap r := by
        intro r hr
        have := hrec h (List.mem_cons_self _ _) path ctx r
        rw [hh] at this
        exact this hr
      have hname : h.Name ∈ used ++ (h :: tail).map Handler.Name := by simp
      rcases hw with ⟨r, hr, hwr⟩ | ⟨c, ⟨ir, hir, rfl⟩, hwc⟩
      · refine recordWrites_fresh h.Name r (hrecs r hr) _ ?_ w hwr
        intro k _
        cases hx : (copyMap ctx).lookup (h.Name ++ '.' :: k) with
        | none => rfl
        | some v =>
          exfalso
          have hsome : ((copyMap ctx).lookup (h.Name ++ '.' :: k)).isSome = true := by
            rw [hx]; rfl
          unfold copyMap at hsome
          rcases isSome_lookup_foldl_mapSet _ _ _ hsome with h2 | h2
          · obtain ⟨n, hn, hpre⟩ := hinv _ h2
            have hn2 : n ∈ used ++ (h :: tail).map Handler.Name := List.mem_append_left _ hn
            have hne : n ≠ h.Name := by
              intro heq
              rw [List.nodup_append] at hnodup
              exact hnodup.2.2 hn (by simp [heq])
            exact prefix_clash hpre hne (hdot n hn2 h.Name hname) (hdot h.Name hname n hn2)
          · simp [List.lookup] at h2
      · have hr : ir.2 ∈ records := by
          obtain ⟨hlt, hget⟩ := List.mem_enum hir
          rw [hget]
          exact List.getElem_mem hlt
        have hlist : (used ++ [h.Name]) ++ tail.map Handler.Name
            = used ++ (h :: tail).map Handler.Name := by simp
        refine ih (used ++ [h.Name]) (path ++ [ir.1]) (newData h.Name ctx ir.2)
          (by rw [hlist]; exact hnodup) (by rw [hlist]; exact hdot)
          (fun g hg => hrec g (List.mem_cons_of_mem _ hg)) ?_ w hwc
        intro key hkey
        rcases isSome_lookup_newData h.Name ctx ir.2 key hkey with h1 | h1
        · exact ⟨h.Name, by simp, h1⟩
        · obtain ⟨n, hn, hpre⟩ := hinv key h1
          exact ⟨n, List.mem_append_left _ hn, hpre⟩

/-- C12, as stated, fails: the handlers named `a` and `a.b` have different names;
in a job that starts from the empty map, `a` returns the record `{"b.c": 1}` and
`a.b` returns `{"c": 2}`, and the write of `a.b` targets the key `a.b.c`, which
the write of `a` has put in the map. -/
theorem no_overwrite_refuted :
    (List.map Handler.Name
        [mockHandler "a".toList [[("b.c".toList, "1".toList)]],
          mockHandler "a.b".toList [[("c".toList, "2".toList)]]]).Nodup ∧
      (runHandlerPipe inOrder [0] []
        [mockHandler "a".toList [[("b.c".toList, "1".toList)]],
          mockHandler "a.b".toList [[("c".toList, "2".toList)]]]).writes
        = [⟨"a.b.c".toList, false⟩, ⟨"a.b.c".toList, true⟩] := by
  decide

/-- C12, amended: for handlers with pairwise distinct names of which none starts
with another name followed by `.`, be it the whole name or only its beginning
(so for names without `.`), whose records are Go maps, along any branch of
`runHandlerPipe` started from the empty map each write
`newData[name+"."+k] = v` targets a key that is not in the map. -/
theorem no_overwrite (order : List Nat → List Str → List Str) (job : Nat)
    (hs : List Handler) (hnames : (hs.map Handler.Name).Nodup)
    (hdot : ∀ a ∈ hs, ∀ b ∈ hs, ¬ (a.Name ++ ['.']) <+: b.Name)
    (hrec : ∀ h ∈ hs, ∀ path data, ∀ r ∈ (h.Handle path data).1, IsMap r) :
    ∀ w ∈ (runHandlerPipe order [job] [] hs).writes, w.present = false := by
  refine writes_fresh order hs [] [job] [] (by simpa using hnames) ?_ hrec ?_
  · intro a ha b hb
    simp only [List.nil_append, List.mem_map] at ha hb
    obtain ⟨x, hx, rfl⟩ := ha
    obtain ⟨y, hy, rfl⟩ := hb
    exact hdot x hx y hy
  · intro key hkey
    simp [List.lookup] at hkey

/-- The names `a` and `a.` are distinct and the second is the first followed by
`.` alone: the record key `.x` of `a` and the record key `x` of `a.` both give
the key `a..x`, so the condition on the names may not ask for more text. -/
theorem test_name_with_dot_suffix :
    (runHandlerPipe inOrder [0] []
        [mockHandler "a".toList [[(".x".toList, "1".toList)]],
          mockHandler "a.".toList [[("x".toList, "2".toList)]]]).writes
      = [⟨"a..x".toList, false⟩, ⟨"a..x".toList, true⟩] := by
  decide

theorem no_overwrite_witness :
    (runHandlerPipe inOrder [0] []
        [mockHandler "a".toList [[("x".toList, "1".toList), ("y".toList, "2".toList)]],
          mockHandler "b".toList [[("x".toList, "3".toList)]]]).writes.all
      (fun w => !w.present) = true :=
  List.all_eq_true.mpr fun w hw => by
    have h := no_overwrite inOrder 0
      [mockHandler "a".toList [[("x".toList, "1".toList), ("y".toList, "2".toList)]],
        mockHandler "b".toList [[("x".toList, "3".toList)]]]
      (by decide)
      (by
        intro a ha b hb
        simp only [List.mem_cons, List.mem_singleton, List.not_mem_nil, or_false] at ha hb
        rcases ha with rfl | rfl <;> rcases hb with rfl | rfl <;>
          simp [mockHandler, List.prefix_iff_eq_take])
      (by
        intro h hh path data r hr
        simp only [List.mem_cons, List.mem_singleton, List.not_mem_nil, or_false] at hh
        rcases hh with rfl | rfl
        · simp only [mockHandler, List.mem_singleton] at hr
          subst hr
          simp [IsMap]
        · simp only [mockHandler, List.mem_singleton] at hr
          subst hr
          simp [IsMap])
      w hw
    simp [h]

/-! ## The scheduler -/

theorem createTimer_delays_head (lib : TimeLib) (interval : Int) (runAt : Str) :
    ∃ ds, (createTimer lib interval runAt).delays = interval :: ds := by
  unfold createTimer
  split
  · cases lib.parse runAt with
    | error e => exact ⟨_, rfl⟩
    | ok hm => exact ⟨_, rfl⟩
  · exact ⟨_, rfl⟩

theorem createTimer_ok (lib : TimeLib) (interval : Int) (runAt : Str)
    (h : runAt = [] ∨ ∃ hm, lib.parse runAt = .ok hm) :
    (createTimer lib interval runAt).err = none := by
  unfold createTimer
  split
  · rename_i hne
    rcases h with h | ⟨hm, h⟩
    · exact absurd h hne
    · rw [h]
  · rfl

theorem jobsBefore_append (p : Event → Bool) (a b : List Event)
    (ha : ∀ e ∈ a, p e = false) :
    jobsBefore p (a ++ b) = a.countP Event.isJob + jobsBefore p b := by
  unfold jobsBefore
  rw [List.takeWhile_append_of_pos (fun e he => by simp [ha e he]), List.countP_append]

theorem countP_isJob_arms (ds : List Int) : (ds.map Event.arm).countP Event.isJob = 0 := by
  induction ds with
  | nil => rfl
  | cons d ds ih => simp [List.countP_cons, Event.isJob, ih]

theorem runLoop_jobsBefore_tick (order : List Nat → List Str → List Str) (dp : dataPipe)
    (interval : Int) (choices : List Choice) (job : Nat) :
    jobsBefore Event.isTick (runLoop order dp interval choices job).events = 0 := by
  cases choices with
  | nil => rfl
  | cons c rest => cases c <;> rfl

/-- C14: with `disable_run_on_start = false` the first event of `Run` is a job,
the second arms the timer, and exactly one job is run before the timer is armed
and before a tick is handled; with `disable_run_on_start = true` no job is run
before the timer is armed or before the first tick, and none at all when the
context is found cancelled first. -/
theorem first_run_rule (lib : TimeLib) (order : List Nat → List Str → List Str)
    (dp : dataPipe) (choices : List Choice) :
    (dp.cfg.disableRunOnStart = false →
        (∃ rest, (dp.Run lib order choices).events
          = Event.job (dp.runJob order 0) :: Event.arm dp.cfg.interval :: rest) ∧
        jobsBefore Event.isArm (dp.Run lib order choices).events = 1 ∧
        jobsBefore Event.isTick (dp.Run lib order choices).events = 1) ∧
      (dp.cfg.disableRunOnStart = true →
        jobsBefore Event.isArm (dp.Run lib order choices).events = 0 ∧
        jobsBefore Event.isTick (dp.Run lib order choices).events = 0 ∧
        (∀ rest, choices = Choice.done :: rest →
          (dp.Run lib order choices).events.countP Event.isJob = 0)) := by
  obtain ⟨ds, hds⟩ := createTimer_delays_head lib dp.cfg.interval dp.cfg.runAt
  have harms : ∀ e ∈ (createTimer lib dp.cfg.interval dp.cfg.runAt).delays.map Event.arm,
      Event.isTick e = false := by
    intro e he
    obtain ⟨d, -, rfl⟩ := List.mem_map.mp he
    rfl
  constructor
  · intro hd
    unfold dataPipe.Run
    simp only [hd, Bool.not_false, if_true]
    cases herr : (createTimer lib dp.cfg.interval dp.cfg.runAt).err with
    | some e =>
      simp only
      refine ⟨⟨_, by rw [hds]; rfl⟩, by rw [hds]; rfl, ?_⟩
      rw [jobsBefore_append Event.isTick [_] _ (by intro e he; simp at he; subst he; rfl),
        jobsBefore_append Event.isTick _ _ harms, countP_isJob_arms]
      rfl
    | none =>
      simp only
      refine ⟨⟨_, by rw [hds]; rfl⟩, by rw [hds]; rfl, ?_⟩
      rw [jobsBefore_append Event.isTick [_] _ (by intro e he; simp at he; subst he; rfl),
        jobsBefore_append Event.isTick _ _ harms, countP_isJob_arms, runLoop_jobsBefore_tick]
      rfl
  · intro hd
    unfold dataPipe.Run
    simp only [hd, Bool.not_true, Bool.false_eq_true, if_false, List.nil_append]
    cases herr : (createTimer lib dp.cfg.interval dp.cfg.runAt).err with
    | some e =>
      simp only
      refine ⟨by rw [hds]; rfl, ?_, ?_⟩
      · rw [jobsBefore_append Event.isTick _ _ harms, countP_isJob_arms]
        rfl
      · intro rest _
        rw [List.countP_append, countP_isJob_arms]
        rfl
    | none =>
      simp only
      refine ⟨by rw [hds]; rfl, ?_, ?_⟩
      · rw [jobsBefore_append Event.isTick _ _ harms, countP_isJob_arms,
          runLoop_jobsBefore_tick]
      · intro rest hc
        subst hc
        rw [List.countP_append, countP_isJob_arms]
        rfl

theorem first_run_rule_witness :
    (∃ rest, (dataPipe.Run (regularDay 0) inOrder
          ⟨⟨false, minute, []⟩, [mockHandler "mock".toList [[("key".toList, "value".toList)]]]⟩
          [Choice.done]).events
        = Event.job (dataPipe.runJob inOrder
            ⟨⟨false, minute, []⟩, [mockHandler "mock".toList [[("key".toList, "value".toList)]]]⟩
            0) :: Event.arm minute :: rest) ∧
      jobsBefore Event.isArm (dataPipe.Run (regularDay 0) inOrder
        ⟨⟨false, minute, []⟩, [mockHandler "mock".toList [[("key".toList, "value".toList)]]]⟩
        [Choice.done]).events = 1 ∧
      jobsBefore Event.isTick (dataPipe.Run (regularDay 0) inOrder
        ⟨⟨false, minute, []⟩, [mockHandler "mock".toList [[("key".toList, "value".toList)]]]⟩
        [Choice.done]).events = 1 :=
  (first_run_rule (regularDay 0) inOrder
    ⟨⟨false, minute, []⟩, [mockHandler "mock".toList [[("key".toList, "value".toList)]]]⟩
    [Choice.done]).1 rfl

/-- The tests `TestDataPipeRun_RunOnStart` and `TestDataPipeRun_CancelContext`:
one job, then the context is cancelled; no job when the run on start is
disabled. -/
theorem test_run_on_start :
    dataPipe.Run (regularDay 0) inOrder
        ⟨⟨false, minute, []⟩, [mockHandler "mock".toList [[("key".toList, "value".toList)]]]⟩
        [Choice.done]
      = ⟨[Event.job none, Event.arm minute, Event.stopped], true⟩ ∧
    dataPipe.Run (regularDay 0) inOrder
        ⟨⟨true, minute, []⟩, [mockHandler "mock".toList [[("key".toList, "value".toList)]]]⟩
        [Choice.done]
      = ⟨[Event.arm minute, Event.stopped], true⟩ := by
  decide

theorem runLoop_arms (order : List Nat → List Str → List Str) (dp : dataPipe)
    (interval : Int) :
    ∀ (choices : List Choice) (job : Nat),
      ∀ d, Event.arm d ∈ (runLoop order dp interval choices job).events → d = interval := by
  intro choices
  induction choices with
  | nil => intro job d h; simp [runLoop] at h
  | cons c rest ih =>
    intro job d h
    cases c with
    | done => simp [runLoop] at h
    | tick =>
      simp only [runLoop, List.mem_cons] at h
      rcases h with h | h | h | h
      · cases h
      · cases h
      · cases h; rfl
      · exact ih _ d h

/-- C15, as stated, fails: on the day the clocks go back, at 00:30 local time with
`run_at = 23:59`, the first delay is 24 h 29 min, which is not below 24 h. -/
theorem createTimer_delay_refuted :
    createTimer fallBackDay hour "23:59".toList
        = ⟨[hour, 24 * hour + 29 * minute], 24 * hour, none⟩ ∧
      ¬ (24 * hour + 29 * minute < 24 * hour) := by
  decide

/-- C15, amended: with an empty `run_at` the timer is armed with the configured
interval and the interval of the later delays is the configured one.  With a
valid `run_at = HH:MM` on a local day of 24 hours (local midnight `midnight`,
`HH:MM` today at `midnight + HH h + MM min` and tomorrow 24 h later) the timer
is armed last with the delay `d` from `now` to the next `HH:MM:00`, today if it
is not past and tomorrow otherwise, `0 ≤ d < 24 h`, and the interval of the later
delays is 24 h.  Every later delay of `Run` is that interval. -/
theorem createTimer_delays (lib : TimeLib) (interval : Int) (runAt : Str) :
    (runAt = [] → createTimer lib interval runAt = ⟨[interval], interval, none⟩) ∧
      (∀ (H M : Nat) (midnight : Int), runAt ≠ [] → lib.parse runAt = .ok (H, M) →
        H < 24 → M < 60 → midnight ≤ lib.now → lib.now < midnight + 24 * hour →
        lib.today H M = midnight + H * hour + M * minute →
        ∃ d, createTimer lib interval runAt = ⟨[interval, d], 24 * hour, none⟩ ∧
          d = (if lib.now ≤ midnight + H * hour + M * minute
                then midnight + H * hour + M * minute
                else midnight + 24 * hour + H * hour + M * minute) - lib.now ∧
          0 ≤ d ∧ d < 24 * hour) ∧
      (∀ order dp choices job d,
        Event.arm d ∈ (runLoop order dp (createTimer lib interval runAt).interval choices
          job).events →
        d = (createTimer lib interval runAt).interval) := by
  refine ⟨?_, ?_, ?_⟩
  · intro h
    simp [createTimer, h]
  · intro H M midnight hne hparse hH hM hlo hhi htoday
    have hHM : (H : Int) * hour + M * minute < 24 * hour := by
      unfold hour minute
      omega
    have hHM0 : 0 ≤ (H : Int) * hour + M * minute := by
      unfold hour minute
      omega
    unfold createTimer
    simp only [hne, ne_eq, not_false_eq_true, if_true, hparse, htoday]
    by_cases hpast : midnight + H * hour + M * minute < lib.now
    · refine ⟨midnight + ↑H * hour + ↑M * minute + 24 * hour - lib.now,
        by simp only [hpast, if_true], ?_, ?_, ?_⟩
      · have : ¬ lib.now ≤ midnight + H * hour + M * minute := by omega
        simp only [this, if_false]
        omega
      · omega
      · omega
    · refine ⟨midnight + ↑H * hour + ↑M * minute - lib.now,
        by simp only [hpast, if_false], ?_, ?_, ?_⟩
      · have : lib.now ≤ midnight + H * hour + M * minute := by omega
        simp only [this, if_true]
      · omega
      · omega
  · intro order dp choices job d h
    exact runLoop_arms order dp _ choices job d h

theorem createTimer_delays_witness :
    ∃ d, createTimer (regularDay 0) hour "23:59".toList = ⟨[hour, d], 24 * hour, none⟩ ∧
      d = (if (regularDay 0).now ≤ 0 + (23 : Nat) * hour + (59 : Nat) * minute
            then 0 + (23 : Nat) * hour + (59 : Nat) * minute
            else 0 + 24 * hour + (23 : Nat) * hour + (59 : Nat) * minute) - (regularDay 0).now ∧
      0 ≤ d ∧ d < 24 * hour :=
  (createTimer_delays (regularDay 0) hour "23:59".toList).2.1 23 59 0 (by decide) (by rfl)
    (by decide) (by decide) (by decide) (by decide) (by rfl)

/-- Scenario S6: `run_at = 23:59` at 00:00 gives 23 h 59 min, then 24 h. -/
theorem test_run_at :
    createTimer (regularDay 0) hour "23:59".toList
      = ⟨[hour, 23 * hour + 59 * minute], 24 * hour, none⟩ := by
  decide

theorem runLoop_returned (order : List Nat → List Str → List Str) (dp : dataPipe)
    (interval : Int) :
    ∀ (choices : List Choice) (job : Nat),
      (runLoop order dp interval choices job).returned = true ↔ Choice.done ∈ choices := by
  intro choices
  induction choices with
  | nil => intro job; simp [runLoop]
  | cons c rest ih =>
    intro job
    cases c with
    | done => simp [runLoop]
    | tick => simp [runLoop, ih]

theorem runLoop_counts (order : List Nat → List Str → List Str) (dp : dataPipe)
    (interval : Int) :
    ∀ (choices : List Choice) (job : Nat),
      (runLoop order dp interval choices job).events.countP Event.isTick = ticksTaken choices ∧
      (runLoop order dp interval choices job).events.countP Event.isJob = ticksTaken choices ∧
      tickThenJob (runLoop order dp interval choices job).events = true := by
  intro choices
  induction choices with
  | nil => intro job; exact ⟨rfl, rfl, rfl⟩
  | cons c rest ih =>
    intro job
    cases c with
    | done => exact ⟨rfl, rfl, rfl⟩
    | tick =>
      obtain ⟨h1, h2, h3⟩ := ih (job + 1)
      refine ⟨?_, ?_, ?_⟩
      · simp only [runLoop, List.countP_cons, Event.isTick, h1, ticksTaken, List.takeWhile_cons,
          beq_self_eq_true, if_true, List.length_cons]
        simp
      · simp only [runLoop, List.countP_cons, Event.isJob, h2, ticksTaken, List.takeWhile_cons,
          beq_self_eq_true, if_true, List.length_cons]
        simp
      · simp only [runLoop, tickThenJob, h3]

theorem tickThenJob_append (a b : List Event) (ha : ∀ e ∈ a, Event.isTick e = false) :
    tickThenJob (a ++ b) = tickThenJob b := by
  induction a with
  | nil => rfl
  | cons e a ih =>
    have hrest := ih (fun x hx => ha x (List.mem_cons_of_mem _ hx))
    have he := ha e (List.mem_cons_self _ _)
    cases e with
    | tick => simp [Event.isTick] at he
    | job err => simpa [tickThenJob] using hrest
    | arm d => simpa [tickThenJob] using hrest
    | stopped => simpa [tickThenJob] using hrest
    | timerError err => simpa [tickThenJob] using hrest

/-- C16, as stated, fails: the engine `badRunAtCfg` passes `Engine.Validate`, and
with it `Run` runs the first job, fails to create the timer and returns, though
the context is not cancelled. -/
theorem run_blocks_refuted :
    config.Engine.Validate badRunAtCfg = none ∧
      dataPipe.Run (regularDay 0) inOrder
          ⟨badRunAtCfg, [mockHandler "mock".toList [[("key".toList, "value".toList)]]]⟩ []
        = ⟨[Event.job none, Event.arm minute,
            Event.timerError ("failed to parse run_at time: ".toList ++ "cannot parse".toList)],
          true⟩ := by
  decide

/-- C16, amended: for every engine configuration whose `run_at` is empty or parses
as a time of day, and every outcome of the jobs, `Run` has returned exactly when
the `select` has found the context cancelled; a failed job does not stop the
loop; every tick handled before that is followed at once by one job, so that
the jobs are the job on start, if it is not disabled, and one for each tick. -/
theorem run_until_cancelled (lib : TimeLib) (order : List Nat → List Str → List Str)
    (dp : dataPipe) (choices : List Choice)
    (hvalid : dp.cfg.runAt = [] ∨ ∃ hm, lib.parse dp.cfg.runAt = .ok hm) :
    ((dp.Run lib order choices).returned = true ↔ Choice.done ∈ choices) ∧
      (dp.Run lib order choices).events.countP Event.isTick = ticksTaken choices ∧
      (dp.Run lib order choices).events.countP Event.isJob
        = (if dp.cfg.disableRunOnStart then 0 else 1) + ticksTaken choices ∧
      tickThenJob (dp.Run lib order choices).events = true := by
  have herr := createTimer_ok lib dp.cfg.interval dp.cfg.runAt hvalid
  have harms : ∀ e ∈ (createTimer lib dp.cfg.interval dp.cfg.runAt).delays.map Event.arm,
      Event.isTick e = false := by
    intro e he
    obtain ⟨d, -, rfl⟩ := List.mem_map.mp he
    rfl
  have harms0 : ((createTimer lib dp.cfg.interval dp.cfg.runAt).delays.map
      Event.arm).countP Event.isTick = 0 := by
    rw [List.countP_eq_zero]
    intro e he
    simp [harms e he]
  unfold dataPipe.Run
  simp only [herr]
  cases hd : dp.cfg.disableRunOnStart with
  | true =>
    simp only [Bool.not_true, Bool.false_eq_true, if_false, List.nil_append, List.length_nil,
      if_true]
    obtain ⟨h1, h2, h3⟩ := runLoop_counts order dp
      (createTimer lib dp.cfg.interval dp.cfg.runAt).interval choices 0
    refine ⟨runLoop_returned order dp _ choices 0, ?_, ?_, ?_⟩
    · rw [List.countP_append, harms0, h1, Nat.zero_add]
    · rw [List.countP_append, countP_isJob_arms, h2]
    · rw [tickThenJob_append _ _ harms, h3]
  | false =>
    simp only [Bool.not_false, if_true, List.length_singleton, Bool.false_eq_true, if_false]
    obtain ⟨h1, h2, h3⟩ := runLoop_counts order dp
      (createTimer lib dp.cfg.interval dp.cfg.runAt).interval choices 1
    refine ⟨runLoop_returned order dp _ choices 1, ?_, ?_, ?_⟩
    · rw [List.countP_append, List.countP_append, harms0, h1]
      simp [Event.isTick]
    · rw [List.countP_append, List.countP_append, countP_isJob_arms, h2]
      simp [Event.isJob]
    · rw [tickThenJob_append [_] _ (by intro e he; simp at he; subst he; rfl),
        tickThenJob_append _ _ harms, h3]

theorem run_until_cancelled_witness :
    ((dataPipe.Run (regularDay 0) inOrder
          ⟨⟨false, minute, []⟩, [failingHandler "mock".toList "handler error".toList]⟩
          [Choice.tick, Choice.tick]).returned = true ↔
        Choice.done ∈ [Choice.tick, Choice.tick]) ∧
      (dataPipe.Run (regularDay 0) inOrder
          ⟨⟨false, minute, []⟩, [failingHandler "mock".toList "handler error".toList]⟩
          [Choice.tick, Choice.tick]).events.countP Event.isTick
        = ticksTaken [Choice.tick, Choice.tick] ∧
      (dataPipe.Run (regularDay 0) inOrder
          ⟨⟨false, minute, []⟩, [failingHandler "mock".toList "handler error".toList]⟩
          [Choice.tick, Choice.tick]).events.countP Event.isJob
        = (if (false : Bool) then 0 else 1) + ticksTaken [Choice.tick, Choice.tick] ∧
      tickThenJob (dataPipe.Run (regularDay 0) inOrder
          ⟨⟨false, minute, []⟩, [failingHandler "mock".toList "handler error".toList]⟩
          [Choice.tick, Choice.tick]).events = true :=
  run_until_cancelled (regularDay 0) inOrder
    ⟨⟨false, minute, []⟩, [failingHandler "mock".toList "handler error".toList]⟩
    [Choice.tick, Choice.tick] (Or.inl rfl)

/-! ## The validation of the configuration -/

theorem quoted_replace : ∀ t : Str, Quoted t (replacePlaceholdersForValidation t) := by
  unfold replacePlaceholdersForValidation
  refine scan_induction Quoted.done ?_ ?_
  · intro c cs m hm ih
    rw [replaceAll_cons_some _ hm]
    obtain ⟨hs, ht⟩ := matchPrefix_sound hm
    rw [keyOf_token ht, hs]
    exact Quoted.token m.text m.group m.rest _ ht ih
  · intro c cs hm ih
    rw [replaceAll_cons_none _ hm]
    exact Quoted.text c cs _ (noTokenAtHead_of_none isReSpace_rbrace hm) ih

theorem quoted_unique {t out : Str} (h : Quoted t out) :
    replacePlaceholdersForValidation t = out := by
  unfold replacePlaceholdersForValidation
  induction h with
  | done => rfl
  | text c s out hno _ ih =>
    have hm : matchPrefix (c :: s) = none := by
      cases hx : matchPrefix (c :: s) with
      | none => rfl
      | some m =>
        obtain ⟨hs, ht⟩ := matchPrefix_sound hx
        exact absurd ht (hno _ _ _ hs)
    rw [replaceAll_cons_none _ hm, ih]
  | token m k rest out hm _ ih =>
    have hc := matchPrefix_complete rest hm
    generalize hmb : m ++ rest = mb at hc
    cases mb with
    | nil => cases hc
    | cons c cs => rw [replaceAll_cons_some _ hc, keyOf_token hm, ih]

theorem httpValidate_eq_none (h : HTTPHandler) :
    h.Validate = none ↔ h.method ≠ [] ∧ h.url ≠ [] := by
  unfold HTTPHandler.Validate
  by_cases hm : h.method = []
  · simp [hm]
  · by_cases hu : h.url = []
    · simp [hm, hu]
    · simp [hm, hu]

theorem filterValidate_eq_none (eval : Str → Except Str Value) (h : FilterHandler) :
    h.Validate eval = none ↔
      h.expression ≠ [] ∧ ∃ q v, Quoted h.expression q ∧ eval q = .ok v := by
  unfold FilterHandler.Validate
  by_cases he : h.expression = []
  · simp [he]
  · simp only [he, if_false, ne_eq, not_false_eq_true, true_and]
    constructor
    · intro hv
      cases hx : eval (replacePlaceholdersForValidation h.expression) with
      | error e => rw [hx] at hv; cases hv
      | ok v => exact ⟨_, v, quoted_replace _, hx⟩
    · rintro ⟨q, v, hq, hv⟩
      rw [quoted_unique hq, hv]

theorem handlerValidate_eq_none (eval : Str → Except Str Value) (h : config.Handler) :
    h.Validate eval = none ↔ ValidHandler eval h := by
  unfold config.Handler.Validate ValidHandler
  by_cases h1 : h.type = "http".toList ∨ h.type = []
  · have hnf : h.type ≠ "filter".toList := by
      rcases h1 with h1 | h1 <;> rw [h1] <;> decide
    simp only [h1, if_true, httpValidate_eq_none, hnf, false_and, or_false]
    constructor
    · intro hv
      exact ⟨h1.symm, hv⟩
    · intro hv
      exact hv.2
  · have h1a : ¬ (h.type = [] ∨ h.type = "http".toList) := fun hx => h1 hx.symm
    simp only [h1, if_false, h1a, false_and, false_or]
    by_cases h2 : h.type = "filter".toList
    · simp only [h2, if_true, true_and]
      exact filterValidate_eq_none eval h.filter
    · simp only [h2, if_false, false_and, iff_false]
      simp

theorem validateHandlers_eq_none (eval : Str → Except Str Value) :
    ∀ (hs : List config.HandlerMapItem) (seen : List Str),
      config.validateHandlers eval seen hs = none ↔
        (∀ item ∈ hs, item.name ∉ seen) ∧ (hs.map fun item => item.name).Nodup ∧
          ∀ item ∈ hs, ValidHandler eval item.handler := by
  intro hs
  induction hs with
  | nil => intro seen; simp [config.validateHandlers]
  | cons item rest ih =>
    intro seen
    unfold config.validateHandlers
    by_cases hdup : item.name ∈ seen
    · simp [hdup]
    · simp only [hdup, if_false]
      cases hv : item.handler.Validate eval with
      | some e =>
        have hnot : ¬ ValidHandler eval item.handler := by
          rw [← handlerValidate_eq_none, hv]
          simp
        simp [hnot]
      | none =>
        have hval : ValidHandler eval item.handler := (handlerValidate_eq_none eval _).mp hv
        simp only [ih (item.name :: seen), List.mem_cons, not_or, List.map_cons, List.nodup_cons,
          List.mem_map, not_exists, not_and, forall_eq_or_imp]
        constructor
        · rintro ⟨h1, h2, h3⟩
          refine ⟨⟨hdup, fun x hx => (h1 x hx).2⟩, ⟨?_, h2⟩, hval, h3⟩
          intro x hx heq
          exact (h1 x hx).1 heq
        · rintro ⟨⟨-, h1⟩, ⟨h2, h3⟩, -, h4⟩
          exact ⟨fun x hx => ⟨fun heq => h2 x hx heq, h1 x hx⟩, h3, h4⟩

/-- C17: `Config.Validate` returns nil if and only if the handler list is non-nil
and non-empty, the interval is greater than 0, the handler names are pairwise
distinct, and every handler is valid: of type `""` or `"http"` with a method and
a URL, or of type `"filter"` with an expression that is not empty and evaluates
once each placeholder `{{ key }}` is replaced by the quoted literal `"key"`. -/
theorem config_validate_iff (eval : Str → Except Str Value) (c : config.Config) :
    c.Validate eval = none ↔
      ∃ hs, c.handlers = some hs ∧ hs ≠ [] ∧ 0 < c.engine.interval ∧
        (hs.map fun item => item.name).Nodup ∧
        ∀ item ∈ hs, ValidHandler eval item.handler := by
  unfold config.Config.Validate
  cases hh : c.handlers with
  | none => simp
  | some hs =>
    cases hs with
    | nil => simp
    | cons item items =>
      simp only [Option.some.injEq, exists_eq_left', ne_eq, reduceCtorEq, not_false_eq_true,
        true_and]
      unfold config.Engine.Validate
      by_cases hi : c.engine.interval ≤ 0
      · have : ¬ 0 < c.engine.interval := by omega
        simp [hi, this]
      · have hpos : 0 < c.engine.interval := by omega
        simp only [hi, if_false, hpos, true_and]
        rw [validateHandlers_eq_none]
        simp

/-- The cases of `TestConfig_Validate` that need no expression evaluator. -/
theorem test_config_validate :
    config.Config.Validate testEval (validTestCfg 0) = none ∧
      config.Config.Validate testEval { (validTestCfg 0) with handlers := none }
        = some "no handlers defined".toList ∧
      config.Config.Validate testEval
          { (validTestCfg 0) with engine := ⟨false, 0, []⟩ }
        = some ("invalid engine config: ".toList ++
            "'interval' must be greater than 0".toList) := by
  decide

/-! ## The engine facade -/

theorem newHandler_known (w : World) (name : Str) (cfg : config.Handler)
    (h : cfg.type ∈ knownTypes) : ∃ hd, newHandler w name cfg = .ok hd ∧ hd.Name = name := by
  unfold newHandler
  simp only [knownTypes, List.mem_cons, List.mem_singleton, List.not_mem_nil, or_false] at h
  by_cases h1 : cfg.type = [] ∨ cfg.type = "http".toList
  · rw [if_pos h1]
    exact ⟨_, rfl, rfl⟩
  · have h2 : cfg.type = "filter".toList := by
      rcases h with h | h | h
      · exact absurd (Or.inl h) h1
      · exact absurd (Or.inr h) h1
      · exact h
    rw [if_neg h1, if_pos h2]
    exact ⟨_, rfl, rfl⟩

theorem newHandler_unknown (w : World) (name : Str) (cfg : config.Handler)
    (h : cfg.type ∉ knownTypes) :
    newHandler w name cfg = .error ("unknown handler type: ".toList ++ cfg.type) := by
  unfold newHandler
  simp only [knownTypes, List.mem_cons, List.mem_singleton, List.not_mem_nil, or_false,
    not_or] at h
  have h1 : ¬ (cfg.type = [] ∨ cfg.type = "http".toList) := fun hx =>
    hx.elim h.1 h.2.1
  rw [if_neg h1, if_neg h.2.2]

theorem newHandlers_known (w : World) :
    ∀ (items : List config.HandlerMapItem) (acc : List Handler),
      (∀ item ∈ items, item.handler.type ∈ knownTypes) →
      ∃ hs, newHandlers w items acc = .ok (acc ++ hs) ∧
        hs.map Handler.Name = items.map fun item => item.name := by
  intro items
  induction items with
  | nil => intro acc _; exact ⟨[], by simp [newHandlers], rfl⟩
  | cons item rest ih =>
    intro acc hk
    obtain ⟨hd, hnew, hname⟩ :=
      newHandler_known w item.name item.handler (hk item (List.mem_cons_self _ _))
    obtain ⟨hs, hrest, hnames⟩ := ih (acc ++ [hd]) (fun x hx => hk x (List.mem_cons_of_mem _ hx))
    refine ⟨hd :: hs, ?_, ?_⟩
    · simp only [newHandlers, hnew, hrest, List.append_assoc, List.singleton_append]
    · simp only [List.map_cons, hname, hnames]

theorem newHandlers_unknown (w : World) :
    ∀ (items : List config.HandlerMapItem) (acc : List Handler),
      (∃ item ∈ items, item.handler.type ∉ knownTypes) →
      ∃ e, newHandlers w items acc = .error e := by
  intro items
  induction items with
  | nil => intro acc h; simp at h
  | cons item rest ih =>
    intro acc h
    by_cases hk : item.handler.type ∈ knownTypes
    · obtain ⟨hd, hnew, -⟩ := newHandler_known w item.name item.handler hk
      have hrest : ∃ x ∈ rest, x.handler.type ∉ knownTypes := by
        obtain ⟨x, hx, hbad⟩ := h
        rcases List.mem_cons.mp hx with rfl | hx
        · exact absurd hk hbad
        · exact ⟨x, hx, hbad⟩
      obtain ⟨e, he⟩ := ih (acc ++ [hd]) hrest
      exact ⟨e, by simp only [newHandlers, hnew, he]⟩
    · refine ⟨"failed to create '".toList ++ item.name ++ "' handler: ".toList ++
        ("unknown handler type: ".toList ++ item.handler.type), ?_⟩
      simp only [newHandlers, newHandler_unknown w item.name item.handler hk]

/-- C18: `NewDataPipe` fails with "no handlers defined" when the handler list is
nil or empty; with a non-empty list whose type tags are all `""`, `"http"` or
`"filter"` it succeeds, and the handlers of the engine are as many as configured
and carry the configured names in the configured order; a handler with another
type tag makes it fail. -/
theorem newDataPipe_result (w : World) (cfg : config.Config) :
    ((cfg.handlers = none ∨ cfg.handlers = some []) →
        NewDataPipe w cfg = .error "no handlers defined".toList) ∧
      (∀ items, cfg.handlers = some items → items ≠ [] →
        (∀ item ∈ items, item.handler.type ∈ knownTypes) →
        ∃ dp, NewDataPipe w cfg = .ok dp ∧ dp.cfg = cfg.engine ∧
          dp.handlers.length = items.length ∧
          dp.handlers.map Handler.Name = items.map fun item => item.name) ∧
      (∀ items, cfg.handlers = some items →
        (∃ item ∈ items, item.handler.type ∉ knownTypes) →
        ∃ e, NewDataPipe w cfg = .error e) := by
  refine ⟨?_, ?_, ?_⟩
  · intro h
    unfold NewDataPipe
    rcases h with h | h <;> rw [h]
  · intro items hitems hne hk
    unfold NewDataPipe
    rw [hitems]
    cases items with
    | nil => exact absurd rfl hne
    | cons item rest =>
      obtain ⟨hs, hnew, hnames⟩ := newHandlers_known w (item :: rest) [] hk
      simp only [hnew, List.nil_append]
      refine ⟨_, rfl, rfl, ?_, hnames⟩
      have := congrArg List.length hnames
      simpa using this
  · intro items hitems hbad
    unfold NewDataPipe
    rw [hitems]
    cases items with
    | nil =>
      obtain ⟨x, hx, -⟩ := hbad
      simp at hx
    | cons item rest =>
      obtain ⟨e, he⟩ := newHandlers_unknown w (item :: rest) [] hbad
      exact ⟨e, by simp only [he]⟩

theorem newDataPipe_result_witness :
    ∃ dp, NewDataPipe testWorld (validTestCfg 0) = .ok dp ∧
      dp.cfg = (validTestCfg 0).engine ∧
      dp.handlers.length = [(⟨"handler1".toList, ⟨[], ⟨"http://example.com".toList,
        "POST".toList, [], [], [], 0, 0, 0, 0, false⟩, ⟨false, []⟩⟩⟩ :
          config.HandlerMapItem)].length ∧
      dp.handlers.map Handler.Name
        = [(⟨"handler1".toList, ⟨[], ⟨"http://example.com".toList,
        "POST".toList, [], [], [], 0, 0, 0, 0, false⟩, ⟨false, []⟩⟩⟩ :
          config.HandlerMapItem)].map fun item => item.name :=
  (newDataPipe_result testWorld (validTestCfg 0)).2.1 _ rfl (by simp) (by
    intro item hitem
    simp only [List.mem_singleton] at hitem
    subst hitem
    decide)

/-! ## Negative retries -/

/-- C20: `HTTPHandler.Validate` does not look at `retries`, and for a handler with
a negative `retries` value `Handle` makes no attempt, sends no request and
returns nil results and the error "failed to execute HTTP request after
<retries> attempts: %!s(<nil>)", the last error being nil. -/
theorem negative_retries (std : Stdlib) (env : Env) (name : Str) (cfg : HTTPHandler)
    (data : Data) (hneg : cfg.retries < 0) :
    (cfg.method ≠ [] → cfg.url ≠ [] → cfg.Validate = none) ∧
      (newHTTPHandler name cfg).Handle std env data
        = some ⟨0, 0, 0, [],
            some ("failed to execute HTTP request after ".toList ++ itoa cfg.retries ++
              " attempts: ".toList ++ "%!s(<nil>)".toList)⟩ := by
  constructor
  · intro hm hu
    exact (httpValidate_eq_none cfg).mpr ⟨hm, hu⟩
  · have hret : (newHTTPHandler name cfg).cfg.retries = cfg.retries := by
      unfold newHTTPHandler
      simp only
      split <;> rfl
    unfold httpHandler.Handle
    rw [hret, handleLoop_succ]
    have hgt : ¬ (((0 : Nat) : Int) ≤ cfg.retries) := by omega
    rw [if_neg hgt]
    rfl

theorem negative_retries_witness :
    (("POST".toList ≠ [] → "http://example.com".toList ≠ [] →
        HTTPHandler.Validate ⟨"http://example.com".toList, "POST".toList, [], [], [], 0, 0, -1,
          0, false⟩ = none)) ∧
      (newHTTPHandler "handler1".toList ⟨"http://example.com".toList, "POST".toList, [], [], [],
          0, 0, -1, 0, false⟩).Handle simpleStd failingEnv []
        = some ⟨0, 0, 0, [],
            some ("failed to execute HTTP request after ".toList ++ itoa (-1) ++
              " attempts: ".toList ++ "%!s(<nil>)".toList)⟩ :=
  negative_retries simpleStd failingEnv "handler1".toList
    ⟨"http://example.com".toList, "POST".toList, [], [], [], 0, 0, -1, 0, false⟩ []
    (by decide)

/-- A configuration with `retries = -1` passes `Config.Validate`. -/
theorem test_validate_negative_retries :
    config.Config.Validate testEval (validTestCfg (-1)) = none := by
  decide

end Datapipe
